import Mathlib

/-! # AutoAlbum: the feed segmentation of `src/src/App.jsx`

A shallow embedding of `processFeed` (with its inner `flushBuffer` and
`tryAddCheckpoint`) and theorems about the node sequence it returns.

Modelling conventions:

* an item is a record of the fields `processFeed` reads;
* `date` holds the time value of `new Date(item.date)` in milliseconds, `none`
  standing for an invalid date (whose arithmetic gives `NaN`, and every
  comparison with `NaN` is false);
* an optional string is truthy when it is present and non-empty;
* `getDistance` (package `geolib`) and the two `toLocaleDateString` calls are
  external, so they are fields of an environment `Env`;
* the mutable `rawNodes` and `buffer` of the source are passed explicitly;
* the loop's `lastNode` and `isMap` are computed but never read, so they are
  left out.
-/

namespace AutoAlbum

/-! ## Data model -/

/-- The `type` field of an item: the source only tests it against `'text'`. -/
inductive ItemType where
  | photo
  | text
deriving DecidableEq, Repr

/-- The `layoutIntent` field when it is one of the two values the source tests. -/
inductive LayoutIntent where
  | hero
  | cluster
deriving DecidableEq, Repr

/-- A coordinate `{ lat, lng }`, in fixed-point units. -/
structure Gps where
  lat : Int
  lng : Int
deriving DecidableEq, Repr

/-- The fields of a manifest entry that `processFeed` reads. -/
structure Item where
  type : ItemType
  src : String
  date : Option Int
  gps : Option Gps
  layoutIntent : Option LayoutIntent
  hideCheckpoint : Bool
  folder : Option String
  manualLocation : Option String
  locationName : Option String
deriving DecidableEq, Repr

/-- An element of `rawNodes`: `{type:'hero',item}`, `{type:'cluster',items}`,
`{type:'map',from,to}` or `{type:'text',item}`. -/
inductive Node where
  | hero (item : Item)
  | cluster (items : List Item)
  | map (fromItem : Item) (toItem : Item)
  | text (item : Item)
deriving DecidableEq, Repr

/-- An element of `checkpoints`; `id` is the `i` of the string `section-i`. -/
structure Checkpoint where
  id : Nat
  label : String
  subLabel : String
  rawLoc : Option String
  monthYear : String
  triggerSrc : String
deriving DecidableEq, Repr

/-- The result `{ nodes, checkpoints }` of `processFeed`. -/
structure Feed where
  nodes : List Node
  checkpoints : List Checkpoint
deriving DecidableEq, Repr

/-- The external functions `processFeed` calls. -/
structure Env where
  getDistance : Gps → Gps → Nat
  dateFull : Option Int → String
  monthYear : Option Int → String

/-! ## Constants -/

/-- `const CLUSTER_TIME_THRESHOLD = 3 * 60 * 60 * 1000;` -/
def CLUSTER_TIME_THRESHOLD : Nat := 3 * 60 * 60 * 1000

/-- `const TRAVEL_DIST_THRESHOLD = 5000;` -/
def TRAVEL_DIST_THRESHOLD : Nat := 5000

/-! ## JavaScript value helpers -/

/-- Truthiness of an optional string: present and non-empty. -/
def truthy (s : Option String) : Bool :=
  match s with
  | some v => v != ""
  | none => false

/-- The expression `a || b` on optional strings. -/
def jsOr (a b : Option String) : Option String :=
  if truthy a then a else b

/-- The expression `a || b` where `b` is always a string. -/
def orString (a : Option String) (b : String) : String :=
  match a with
  | some v => if v != "" then v else b
  | none => b

/-- The expression `Math.abs(new Date(a) - new Date(b))`; `none` is `NaN`. -/
def timeDiff (a b : Option Int) : Option Nat :=
  match a, b with
  | some x, some y => some (x - y).natAbs
  | _, _ => none

/-- The test `timeDiff < CLUSTER_TIME_THRESHOLD`, false on `NaN`. -/
def withinThreshold (d : Option Nat) : Bool :=
  match d with
  | some n => decide (n < CLUSTER_TIME_THRESHOLD)
  | none => false

/-- The expression `curr.folder && (curr.folder === lastInScene.folder)`. -/
def sameFolder (curr lastInScene : Item) : Bool :=
  truthy curr.folder && decide (curr.folder = lastInScene.folder)

/-! ## The segmentation pass -/

/-- The closure `flushBuffer`, on the explicit state `(rawNodes, buffer)`. -/
def flushBuffer (rawNodes : List Node) (buffer : List Item) : List Node × List Item :=
  if buffer.length = 0 then (rawNodes, buffer)
  else
    let heros := buffer.filter (fun photo => photo.layoutIntent == some LayoutIntent.hero)
    let cluster := buffer.filter (fun photo => !(photo.layoutIntent == some LayoutIntent.hero))
    let rawNodes := rawNodes ++ heros.map Node.hero
    let rawNodes :=
      match cluster with
      | [] => rawNodes
      | c0 :: _ =>
        if cluster.length = 1 ∧ c0.layoutIntent ≠ some LayoutIntent.cluster then
          rawNodes ++ [Node.hero c0]
        else
          rawNodes ++ [Node.cluster cluster]
    (rawNodes, [])

/-- The guard of the map branch: `prev && prev.gps && curr.gps`, then
`dist > TRAVEL_DIST_THRESHOLD && !curr.hideCheckpoint`. -/
def mapTriggered (env : Env) (prev : Option Item) (curr : Item) : Bool :=
  match prev with
  | none => false
  | some p =>
    match p.gps, curr.gps with
    | some g1, some g2 =>
      decide (env.getDistance g1 g2 > TRAVEL_DIST_THRESHOLD) && !curr.hideCheckpoint
    | _, _ => false

/-- The block `if (prev && prev.gps && curr.gps) { ... }` of the loop body. -/
def travelStep (env : Env) (prev : Option Item) (curr : Item)
    (st : List Node × List Item) : List Node × List Item :=
  match prev with
  | none => st
  | some p =>
    match p.gps, curr.gps with
    | some g1, some g2 =>
      if env.getDistance g1 g2 > TRAVEL_DIST_THRESHOLD ∧ curr.hideCheckpoint = false then
        let fl := flushBuffer st.1 st.2
        (fl.1 ++ [Node.map p curr], fl.2)
      else st
    | _, _ => st

/-- One iteration of the `for` loop: `prev` is `photos[i - 1]` (absent for
`i = 0`) and `curr` is `photos[i]`. -/
def step (env : Env) (prev : Option Item) (curr : Item)
    (st : List Node × List Item) : List Node × List Item :=
  if curr.type = ItemType.text then
    let fl := flushBuffer st.1 st.2
    (fl.1 ++ [Node.text curr], fl.2)
  else
    let st1 := travelStep env prev curr st
    match curr.layoutIntent with
    | some LayoutIntent.hero => (st1.1, st1.2 ++ [curr])
    | some LayoutIntent.cluster => (st1.1, st1.2 ++ [curr])
    | none =>
      if st1.2.length = 0 then (st1.1, st1.2 ++ [curr])
      else
        match st1.2.getLast? with
        | none => (st1.1, st1.2 ++ [curr])
        | some lastInScene =>
          if withinThreshold (timeDiff curr.date lastInScene.date) ∨
              sameFolder curr lastInScene then
            (st1.1, st1.2 ++ [curr])
          else
            let fl := flushBuffer st1.1 st1.2
            (fl.1, fl.2 ++ [curr])

/-- The `for` loop over `photos`, carrying the previous element. -/
def loop (env : Env) : Option Item → List Item → List Node × List Item → List Node × List Item
  | _, [], st => st
  | prev, curr :: rest, st => loop env (some curr) rest (step env prev curr st)

/-! ## The checkpoint pass -/

/-- The closure `tryAddCheckpoint(item, nodeId)` on the explicit `checkpoints`. -/
def tryAddCheckpoint (env : Env) (checkpoints : List Checkpoint) (item : Item)
    (nodeId : Nat) : List Checkpoint :=
  if item.hideCheckpoint then checkpoints
  else
    let loc := jsOr (jsOr item.manualLocation item.folder) item.locationName
    let dateFull := env.dateFull item.date
    let monthYear := env.monthYear item.date
    let shouldAdd : Bool :=
      match checkpoints.getLast? with
      | none => true
      | some lastPoint =>
        let lastVal := orString lastPoint.rawLoc lastPoint.monthYear
        let currVal := orString loc monthYear
        lastVal != currVal
    if shouldAdd then
      checkpoints ++ [{ id := nodeId, label := orString loc monthYear,
                        subLabel := if truthy loc then dateFull else "",
                        rawLoc := loc, monthYear := monthYear, triggerSrc := item.src }]
    else checkpoints

/-- The `contextItem` of a node: the hero item or `items[0]` of a cluster. -/
def contextItem (node : Node) : Option Item :=
  match node with
  | Node.hero item => some item
  | Node.cluster items => items.head?
  | _ => none

/-- The `nodes.forEach((node, i) => ...)` of the checkpoint pass, from index `i`. -/
def checkpointLoop (env : Env) : List Node → Nat → List Checkpoint → List Checkpoint
  | [], _, checkpoints => checkpoints
  | node :: rest, i, checkpoints =>
    match contextItem node with
    | some item => checkpointLoop env rest (i + 1) (tryAddCheckpoint env checkpoints item i)
    | none => checkpointLoop env rest (i + 1) checkpoints

/-- The function `processFeed(photos)`. -/
def processFeed (env : Env) (photos : List Item) : Feed :=
  if photos.length = 0 then { nodes := [], checkpoints := [] }
  else
    let st := loop env none photos ([], [])
    let nodes := (flushBuffer st.1 st.2).1
    { nodes := nodes, checkpoints := checkpointLoop env nodes 0 [] }

/-! ## Reading the items back from the nodes -/

/-- The items a node holds: the hero item, the cluster items, the text item;
a map node holds none. -/
def nodeItems (node : Node) : List Item :=
  match node with
  | Node.hero item => [item]
  | Node.cluster items => items
  | Node.map _ _ => []
  | Node.text item => [item]

/-- The items of a node list, in node order. -/
def flatten : List Node → List Item
  | [] => []
  | node :: rest => nodeItems node ++ flatten rest

/-! ## Sample data -/

/-- A distance on the fixed-point grid: the sum of the coordinate gaps. -/
def gridDistance (a b : Gps) : Nat :=
  (a.lat - b.lat).natAbs + (a.lng - b.lng).natAbs

/-- An environment for the examples. -/
def sampleEnv : Env :=
  { getDistance := gridDistance
    dateFull := fun d => match d with
      | some t => "day " ++ toString (t / 86400000)
      | none => "Invalid Date"
    monthYear := fun d => match d with
      | some t => "month " ++ toString (t / 2592000000)
      | none => "Invalid Date" }

/-- A photo with the given identity and time, and nothing else set. -/
def photoAt (src : String) (t : Int) : Item :=
  { type := ItemType.photo, src := src, date := some t, gps := none,
    layoutIntent := none, hideCheckpoint := false, folder := none,
    manualLocation := none, locationName := none }

/-- One hour in milliseconds. -/
def hour : Int := 3600000

/-! ## The pass as a function of the pending buffer

`rawNodes` only ever grows at its end, so the nodes a run appends do not
depend on the nodes already present. The definitions below name what one
flush and one iteration append; `step_eq` and `processFeed_nodes` tie them to
the definitions above. -/

/-- The test `photo.layoutIntent === 'hero'` of `flushBuffer`. -/
def isHero (photo : Item) : Bool := photo.layoutIntent == some LayoutIntent.hero

/-- The node `flushBuffer` makes of the `cluster` array. -/
def clusterNodes (cluster : List Item) : List Node :=
  match cluster with
  | [] => []
  | c0 :: _ =>
    if cluster.length = 1 ∧ c0.layoutIntent ≠ some LayoutIntent.cluster then [Node.hero c0]
    else [Node.cluster cluster]

/-- The nodes one call of `flushBuffer` appends for a given buffer. -/
def flushNodes (buffer : List Item) : List Node :=
  (buffer.filter isHero).map Node.hero ++ clusterNodes (buffer.filter (fun p => !isHero p))

/-- The auto-mode test that `curr` continues the scene held in `buffer`. -/
def joins (curr : Item) (buffer : List Item) : Bool :=
  match curr.layoutIntent with
  | some _ => true
  | none =>
    match buffer.getLast? with
    | none => true
    | some lastInScene =>
      withinThreshold (timeDiff curr.date lastInScene.date) || sameFolder curr lastInScene

/-- The map node an iteration appends, if any. -/
def mapNodes (env : Env) (prev : Option Item) (curr : Item) : List Node :=
  match prev with
  | none => []
  | some p => if mapTriggered env (some p) curr then [Node.map p curr] else []

/-- The nodes one iteration appends to `rawNodes`. -/
def emitted (env : Env) (prev : Option Item) (curr : Item) (buffer : List Item) : List Node :=
  if curr.type = ItemType.text then flushNodes buffer ++ [Node.text curr]
  else if mapTriggered env prev curr then flushNodes buffer ++ mapNodes env prev curr
  else if joins curr buffer then []
  else flushNodes buffer

/-- The buffer after one iteration. -/
def nextBuffer (env : Env) (prev : Option Item) (curr : Item) (buffer : List Item) : List Item :=
  if curr.type = ItemType.text then []
  else if mapTriggered env prev curr then [curr]
  else if joins curr buffer then buffer ++ [curr]
  else [curr]

/-- The nodes a run over `rest` appends, final flush included, when it starts
with the given previous element and buffer. -/
def out (env : Env) : Option Item → List Item → List Item → List Node
  | _, [], buffer => flushNodes buffer
  | prev, curr :: rest, buffer =>
    emitted env prev curr buffer ++ out env (some curr) rest (nextBuffer env prev curr buffer)

/-- A photo taken at a place: identity, time, coordinate and place name. -/
def photoIn (src : String) (t : Int) (g : Gps) (name : Option String) : Item :=
  { type := ItemType.photo, src := src, date := some t, gps := some g,
    layoutIntent := none, hideCheckpoint := false, folder := none,
    manualLocation := none, locationName := name }

/-- A text block with the given identity. -/
def textBlock (src : String) : Item :=
  { type := ItemType.text, src := src, date := none, gps := none,
    layoutIntent := none, hideCheckpoint := false, folder := none,
    manualLocation := none, locationName := none }

/-- Two coordinates 9000 grid units apart. -/
def telAviv : Gps := { lat := 32000, lng := 34000 }

/-- The second coordinate of the sample trip. -/
def miami : Gps := { lat := 25000, lng := 32000 }

/-- A trip in the manner of `mock_data.js`: three photos in one place within
three hours, a text block, then two photos in a far place the next day, the
first of them with hero intent. -/
def sampleTrip : List Item :=
  [ photoIn "a.jpg" (9 * hour) telAviv (some "Tel Aviv-Yafo"),
    photoIn "b.jpg" (10 * hour) telAviv none,
    photoIn "c.jpg" (11 * hour + 1800000) telAviv none,
    textBlock "text_1",
    { photoIn "d.jpg" (33 * hour) miami (some "Miami Beach") with
        layoutIntent := some LayoutIntent.hero },
    photoIn "e.jpg" (34 * hour) miami none ]

/-- An auto photo followed, one hour later, by a photo with hero intent. -/
def heroAfterAuto : List Item :=
  [ photoAt "a.jpg" 0,
    { photoAt "b.jpg" hour with layoutIntent := some LayoutIntent.hero } ]

/-! ## Predicates used to state the results -/

/-- The node is a map node. -/
def isMap (node : Node) : Bool :=
  match node with
  | Node.map _ _ => true
  | _ => false

/-- Every map node of the list has its `from` item among `seen` or in an
earlier node of the list, and its `to` item in a later node of the list. -/
def MapsBetween : List Item → List Node → Prop
  | _, [] => True
  | seen, node :: rest =>
    (match node with
      | Node.map f t => f ∈ seen ∧ t ∈ flatten rest
      | _ => True) ∧ MapsBetween (seen ++ nodeItems node) rest

/-- A photo in one place followed, the next day, by a photo 9000 grid units
away: the travel gap of `mock_data.js`. -/
def travelPair : List Item :=
  [ photoIn "c.jpg" (11 * hour + 1800000) telAviv none,
    photoIn "d.jpg" (33 * hour) miami (some "Miami Beach") ]

/-- Two auto photos exactly three hours apart. -/
def threeHoursApart : List Item :=
  [ photoAt "a.jpg" 0, photoAt "b.jpg" (3 * hour) ]

/-- Two auto photos one hour apart and 9000 grid units apart. -/
def quickTravel : List Item :=
  [ photoIn "a.jpg" 0 telAviv none, photoIn "b.jpg" hour miami none ]

/-- A photo in a folder. -/
def photoInFolder (src : String) (t : Int) (folder : String) : Item :=
  { photoAt src t with folder := some folder }

/-- Two auto photos a day apart in the same folder, then one three hours
later outside it. -/
def folderTrip : List Item :=
  [ photoInFolder "a.jpg" 0 "Rome", photoInFolder "b.jpg" (24 * hour) "Rome",
    photoAt "c.jpg" (27 * hour) ]

/-- Three photos within an hour: hero intent, cluster intent, hero intent. -/
def intentTrip : List Item :=
  [ { photoAt "a.jpg" 0 with layoutIntent := some LayoutIntent.hero },
    { photoAt "b.jpg" 600000 with layoutIntent := some LayoutIntent.cluster },
    { photoAt "c.jpg" 1200000 with layoutIntent := some LayoutIntent.hero } ]

/-! ## The checkpoint pass, step by step -/

/-- The value `loc` of `tryAddCheckpoint`:
`item.manualLocation || item.folder || item.locationName`. -/
def resolvedLoc (item : Item) : Option String :=
  jsOr (jsOr item.manualLocation item.folder) item.locationName

/-- The value `loc || monthYear` of `tryAddCheckpoint`: the label an item
resolves to. -/
def resolvedLabel (env : Env) (item : Item) : String :=
  orString (resolvedLoc item) (env.monthYear item.date)

/-- The record `tryAddCheckpoint` pushes for an item and a node index. -/
def mkCheckpoint (env : Env) (item : Item) (nodeId : Nat) : Checkpoint :=
  { id := nodeId, label := resolvedLabel env item,
    subLabel := if truthy (resolvedLoc item) then env.dateFull item.date else "",
    rawLoc := resolvedLoc item, monthYear := env.monthYear item.date,
    triggerSrc := item.src }

/-- The checkpoints once the first `k` nodes have been visited. -/
def cpsAt (env : Env) (nodes : List Node) (k : Nat) : List Checkpoint :=
  checkpointLoop env (nodes.take k) 0 []

/-- The checkpoint comes from the representative item of the node at its
index, and that item does not hide its checkpoint. -/
def Generated (env : Env) (nodes : List Node) (c : Checkpoint) : Prop :=
  ∃ n r, nodes[c.id]? = some n ∧ contextItem n = some r ∧ r.hideCheckpoint = false ∧
    c = mkCheckpoint env r c.id

/-- A photo with a place name and nothing else set. -/
def photoNamed (src : String) (t : Int) (name : String) : Item :=
  { photoAt src t with locationName := some name }

/-- Two photos five hours apart in different places; the second hides its
checkpoint. -/
def hiddenSecond : List Item :=
  [ photoNamed "a.jpg" 0 "Rome",
    { photoNamed "b.jpg" (5 * hour) "Paris" with hideCheckpoint := true } ]

/-- Three photos five hours apart: Rome, Paris with its checkpoint hidden,
Rome again. -/
def hiddenFirst : List Item :=
  [ photoNamed "a.jpg" 0 "Rome",
    { photoNamed "b.jpg" (5 * hour) "Paris" with hideCheckpoint := true },
    photoNamed "c.jpg" (10 * hour) "Rome" ]

/-- Two photos five hours apart in different places. -/
def twoPlaces : List Item :=
  [ photoNamed "a.jpg" 0 "Rome", photoNamed "b.jpg" (5 * hour) "Paris" ]

/-- A lone photo with cluster intent. -/
def loneCluster : List Item :=
  [ { photoAt "b.jpg" 600000 with layoutIntent := some LayoutIntent.cluster } ]

/-- The input is one scene: no text item, no map node triggered, and every
photo without `layoutIntent` passes the auto test against its predecessor. -/
def singleScene (env : Env) : Option Item → List Item → Bool
  | _, [] => true
  | prev, curr :: rest =>
    decide (curr.type ≠ ItemType.text) && !mapTriggered env prev curr &&
    (match curr.layoutIntent, prev with
      | none, some p => withinThreshold (timeDiff curr.date p.date) || sameFolder curr p
      | _, _ => true) &&
    singleScene env (some curr) rest

/-- Three photos with no `layoutIntent`, no folder, no `manualLocation` and
`hideCheckpoint` false, at 09:00, 10:00 and 11:30 of a day that starts at
`day`, at the same coordinate, the first with place name `name`. -/
def sameDayThree (a b c : String) (day : Int) (g : Gps) (name : String)
    (nameB nameC : Option String) : List Item :=
  [ photoIn a (day + 9 * hour) g (some name),
    photoIn b (day + 10 * hour) g nameB,
    photoIn c (day + 11 * hour + 1800000) g nameC ]

/-- An auto photo followed, five hours later, by a photo with cluster
intent. -/
def clusterAfterAuto : List Item :=
  [ photoAt "e.jpg" 0,
    { photoAt "f.jpg" (5 * hour) with layoutIntent := some LayoutIntent.cluster } ]

/-- Three auto photos five hours apart. -/
def farApart : List Item :=
  [ photoAt "d.jpg" 0, photoAt "e.jpg" (5 * hour), photoAt "f.jpg" (10 * hour) ]

/-- A text block that carries a coordinate, followed by a photo 9000 grid
units away. -/
def textWithGps : List Item :=
  [ { textBlock "text_1" with gps := some telAviv },
    photoIn "d.jpg" (33 * hour) miami (some "Miami Beach") ]

/-- An auto photo, a hero-intent photo ten hours later, and an auto photo one
hour after that. -/
def heroBetween : List Item :=
  [ photoAt "a.jpg" 0,
    { photoAt "h.jpg" (10 * hour) with layoutIntent := some LayoutIntent.hero },
    photoAt "b.jpg" (11 * hour) ]

/-- The auto test of the loop body, as a relation between an item of the
buffer and the item buffered right after it. -/
def SceneStep (z y : Item) : Prop :=
  y.layoutIntent = none →
    withinThreshold (timeDiff y.date z.date) = true ∨ sameFolder y z = true

/-- An input of invalid shape: a non-text item without timestamp, a non-text
item without identity, or two consecutive items out of time order. -/
def invalidShape (photos : List Item) : Prop :=
  (∃ x ∈ photos, x.type ≠ ItemType.text ∧ x.date = none) ∨
  (∃ x ∈ photos, x.type ≠ ItemType.text ∧ x.src = "") ∨
  (∃ (i : Nat) (a b : Item) (ta tb : Int), photos[i]? = some a ∧ photos[i + 1]? = some b ∧
    a.date = some ta ∧ b.date = some tb ∧ tb < ta)

/-- A photo with neither identity nor timestamp, then two photos out of time
order. -/
def badShape : List Item :=
  [ { photoAt "" 0 with date := none }, photoAt "b.jpg" (5 * hour), photoAt "c.jpg" 0 ]

/-- Two auto photos in one folder, the second without a parsable date, then
an auto photo outside the folder without a parsable date. -/
def undated : List Item :=
  [ photoInFolder "a.jpg" 0 "Rome",
    { photoInFolder "b.jpg" 0 "Rome" with date := none },
    { photoAt "c.jpg" 0 with date := none } ]

/-! ## Basic facts -/

theorem flatten_append (xs ys : List Node) : flatten (xs ++ ys) = flatten xs ++ flatten ys := by
  induction xs with
  | nil => rfl
  | cons n ns ih => simp [flatten, ih]

theorem mem_flatten_iff (x : Item) (ns : List Node) :
    x ∈ flatten ns ↔ ∃ n ∈ ns, x ∈ nodeItems n := by
  induction ns with
  | nil => simp [flatten]
  | cons n ns ih => simp [flatten, ih]

theorem flatten_map_hero (xs : List Item) : flatten (xs.map Node.hero) = xs := by
  induction xs with
  | nil => rfl
  | cons x xs ih => simp [flatten, nodeItems, ih]

theorem flatten_clusterNodes (cl : List Item) : flatten (clusterNodes cl) = cl := by
  unfold clusterNodes
  cases cl with
  | nil => rfl
  | cons c cs =>
    by_cases h : (c :: cs).length = 1 ∧ c.layoutIntent ≠ some LayoutIntent.cluster
    · have hcs : cs = [] := by
        have := h.1
        simp at this
        exact this
      subst hcs
      simp [h, flatten, nodeItems]
    · simp only [h, if_false]
      simp [flatten, nodeItems]

theorem flatten_flushNodes (buf : List Item) :
    flatten (flushNodes buf) = buf.filter isHero ++ buf.filter (fun p => !isHero p) := by
  simp [flushNodes, flatten_append, flatten_map_hero, flatten_clusterNodes]

theorem flushBuffer_eq (rn : List Node) (buf : List Item) :
    flushBuffer rn buf = (rn ++ flushNodes buf, []) := by
  unfold flushBuffer flushNodes clusterNodes
  cases buf with
  | nil => simp
  | cons b bs =>
    simp only [List.length_cons, Nat.succ_ne_zero, if_false]
    have e1 : (fun photo : Item => photo.layoutIntent == some LayoutIntent.hero) = isHero := rfl
    have e2 : (fun photo : Item => !(photo.layoutIntent == some LayoutIntent.hero))
        = (fun p => !isHero p) := rfl
    rw [e1, e2]
    cases hcl : List.filter (fun p => !isHero p) (b :: bs) with
    | nil => simp
    | cons c cs =>
      by_cases h : (c :: cs).length = 1 ∧ c.layoutIntent ≠ some LayoutIntent.cluster
      · show ((if _ then _ else _), _) = (_ ++ (_ ++ (if _ then _ else _)), _)
        rw [if_pos h, if_pos h, List.append_assoc]
      · show ((if _ then _ else _), _) = (_ ++ (_ ++ (if _ then _ else _)), _)
        rw [if_neg h, if_neg h, List.append_assoc]

theorem travelStep_eq (env : Env) (prev : Option Item) (curr : Item) (rn : List Node)
    (buf : List Item) :
    travelStep env prev curr (rn, buf) =
      if mapTriggered env prev curr then (rn ++ (flushNodes buf ++ mapNodes env prev curr), [])
      else (rn, buf) := by
  cases prev with
  | none => simp [travelStep, mapTriggered]
  | some p =>
    rcases Option.eq_none_or_eq_some p.gps with hg1 | ⟨g1, hg1⟩
    · simp [travelStep, mapTriggered, hg1]
    · rcases Option.eq_none_or_eq_some curr.gps with hg2 | ⟨g2, hg2⟩
      · simp [travelStep, mapTriggered, hg1, hg2]
      · by_cases h1 : env.getDistance g1 g2 > TRAVEL_DIST_THRESHOLD
        · cases hh : curr.hideCheckpoint with
          | true => simp [travelStep, mapTriggered, mapNodes, hg1, hg2, h1, hh]
          | false =>
            simp [travelStep, mapTriggered, mapNodes, hg1, hg2, h1, hh, flushBuffer_eq]
        · simp [travelStep, mapTriggered, mapNodes, hg1, hg2, h1]

theorem step_eq (env : Env) (prev : Option Item) (curr : Item) (rn : List Node)
    (buf : List Item) :
    step env prev curr (rn, buf) =
      (rn ++ emitted env prev curr buf, nextBuffer env prev curr buf) := by
  unfold step emitted nextBuffer
  by_cases ht : curr.type = ItemType.text
  · simp [ht, flushBuffer_eq]
  · simp only [ht, if_false, travelStep_eq]
    cases hm : mapTriggered env prev curr with
    | true =>
      simp only [if_true]
      cases hi : curr.layoutIntent with
      | none => simp
      | some li => cases li <;> simp
    | false =>
      simp only [Bool.false_eq_true, if_false]
      unfold joins
      cases hi : curr.layoutIntent with
      | some li => cases li <;> simp
      | none =>
        cases hl : buf.getLast? with
        | none =>
          have : buf = [] := List.getLast?_eq_none_iff.mp hl
          subst this
          simp
        | some l =>
          have hne : buf.length ≠ 0 := by
            intro h0
            have : buf = [] := List.length_eq_zero.mp h0
            subst this
            simp at hl
          cases h1 : withinThreshold (timeDiff curr.date l.date) <;>
            cases h2 : sameFolder curr l <;>
            simp [hne, hl, h1, h2, flushBuffer_eq]

theorem loop_eq (env : Env) (rest : List Item) :
    ∀ (prev : Option Item) (rn : List Node) (buf : List Item),
      (flushBuffer (loop env prev rest (rn, buf)).1 (loop env prev rest (rn, buf)).2).1
        = rn ++ out env prev rest buf := by
  induction rest with
  | nil =>
    intro prev rn buf
    simp [loop, out, flushBuffer_eq]
  | cons c cs ih =>
    intro prev rn buf
    simp only [loop, out, step_eq, ih, List.append_assoc]

/-- The nodes of `processFeed` are those of a run from the empty state. -/
theorem processFeed_nodes (env : Env) (photos : List Item) :
    (processFeed env photos).nodes = out env none photos [] := by
  unfold processFeed
  cases photos with
  | nil => simp [out, flushNodes, clusterNodes]
  | cons p ps =>
    simp only [List.length_cons, Nat.succ_ne_zero, if_false]
    rw [loop_eq]
    simp

/-! ## What one iteration and one run do to the items -/

theorem flatten_mapNodes (env : Env) (prev : Option Item) (curr : Item) :
    flatten (mapNodes env prev curr) = [] := by
  unfold mapNodes
  cases prev with
  | none => rfl
  | some p => by_cases h : mapTriggered env (some p) curr = true <;> simp [h, flatten, nodeItems]

/-- Every case of one iteration: what it appends and the buffer it leaves. -/
theorem emitted_cases (env : Env) (prev : Option Item) (curr : Item) (buf : List Item) :
    (curr.type = ItemType.text ∧ emitted env prev curr buf = flushNodes buf ++ [Node.text curr]
        ∧ nextBuffer env prev curr buf = []) ∨
    (curr.type ≠ ItemType.text ∧ (∃ p, prev = some p ∧ mapTriggered env (some p) curr = true ∧
        emitted env prev curr buf = flushNodes buf ++ [Node.map p curr])
        ∧ nextBuffer env prev curr buf = [curr]) ∨
    (curr.type ≠ ItemType.text ∧ mapTriggered env prev curr = false ∧ joins curr buf = true ∧
        emitted env prev curr buf = [] ∧ nextBuffer env prev curr buf = buf ++ [curr]) ∨
    (curr.type ≠ ItemType.text ∧ mapTriggered env prev curr = false ∧ joins curr buf = false ∧
        emitted env prev curr buf = flushNodes buf ∧ nextBuffer env prev curr buf = [curr]) := by
  unfold emitted nextBuffer
  by_cases ht : curr.type = ItemType.text
  · left
    simp [ht]
  · right
    cases hm : mapTriggered env prev curr with
    | true =>
      left
      cases prev with
      | none => simp [mapTriggered] at hm
      | some p => simp [ht, hm, mapNodes]
    | false =>
      right
      cases hj : joins curr buf with
      | true => left; simp [ht]
      | false => right; simp [ht]

theorem flushNodes_perm (buf : List Item) : (flatten (flushNodes buf)).Perm buf := by
  rw [flatten_flushNodes]
  exact List.filter_append_perm isHero buf

theorem emitted_perm (env : Env) (prev : Option Item) (curr : Item) (buf : List Item) :
    (flatten (emitted env prev curr buf) ++ nextBuffer env prev curr buf).Perm (buf ++ [curr]) := by
  rcases emitted_cases env prev curr buf with ⟨_, he, hb⟩ | ⟨_, ⟨p, _, _, he⟩, hb⟩ |
      ⟨_, _, _, he, hb⟩ | ⟨_, _, _, he, hb⟩
  · rw [he, hb, flatten_append]
    simpa [flatten, nodeItems] using (flushNodes_perm buf).append_right [curr]
  · rw [he, hb, flatten_append]
    simpa [flatten, nodeItems] using (flushNodes_perm buf).append_right [curr]
  · rw [he, hb]
    simp [flatten]
  · rw [he, hb]
    exact (flushNodes_perm buf).append_right [curr]

theorem out_perm (env : Env) (rest : List Item) :
    ∀ (prev : Option Item) (buf : List Item),
      (flatten (out env prev rest buf)).Perm (buf ++ rest) := by
  induction rest with
  | nil =>
    intro prev buf
    simpa [out] using flushNodes_perm buf
  | cons c cs ih =>
    intro prev buf
    simp only [out, flatten_append]
    have h1 := (ih (some c) (nextBuffer env prev c buf)).append_left
      (flatten (emitted env prev c buf))
    have h2 := (emitted_perm env prev c buf).append_right cs
    refine h1.trans ?_
    simpa [List.append_assoc] using h2

theorem filter_flushNodes (q : Item → Bool) (buf : List Item)
    (hq : ∀ x y, isHero x = true → isHero y = false → q x = true → q y = false) :
    (flatten (flushNodes buf)).filter q = buf.filter q := by
  rw [flatten_flushNodes]
  induction buf with
  | nil => rfl
  | cons b bs ih =>
    cases hb : isHero b with
    | true =>
      simp only [List.filter_cons, hb, if_true, Bool.not_true, Bool.false_eq_true, if_false,
        List.cons_append]
      cases hqb : q b with
      | true => simp only [if_true]; rw [ih]
      | false => simp only [Bool.false_eq_true, if_false]; rw [ih]
    | false =>
      simp only [List.filter_cons, hb, Bool.false_eq_true, if_false, Bool.not_false, if_true]
      rw [List.filter_append, List.filter_cons]
      cases hqb : q b with
      | false =>
        simp only [Bool.false_eq_true, if_false]
        rw [← List.filter_append]
        exact ih
      | true =>
        simp only [if_true]
        have hnil : List.filter q (List.filter isHero bs) = [] := by
          rw [List.filter_eq_nil_iff]
          intro x hx
          have hxh : isHero x = true := (List.mem_filter.mp hx).2
          intro hqx
          have := hq x b hxh hb hqx
          rw [hqb] at this
          exact Bool.noConfusion this
        rw [hnil, List.nil_append]
        rw [List.filter_append, hnil, List.nil_append] at ih
        rw [ih]

theorem out_filter (env : Env) (q : Item → Bool)
    (hq : ∀ x y, isHero x = true → isHero y = false → q x = true → q y = false)
    (rest : List Item) :
    ∀ (prev : Option Item) (buf : List Item),
      (flatten (out env prev rest buf)).filter q = (buf ++ rest).filter q := by
  induction rest with
  | nil =>
    intro prev buf
    simpa [out] using filter_flushNodes q buf hq
  | cons c cs ih =>
    intro prev buf
    simp only [out, flatten_append, List.filter_append, ih]
    have hstep : (flatten (emitted env prev c buf)).filter q ++
        (nextBuffer env prev c buf).filter q = buf.filter q ++ [c].filter q := by
      rcases emitted_cases env prev c buf with ⟨_, he, hb⟩ | ⟨_, ⟨p, _, _, he⟩, hb⟩ |
          ⟨_, _, _, he, hb⟩ | ⟨_, _, _, he, hb⟩
      · rw [he, hb, flatten_append, List.filter_append, filter_flushNodes q buf hq]
        simp [flatten, nodeItems]
      · rw [he, hb, flatten_append, List.filter_append, filter_flushNodes q buf hq]
        simp [flatten, nodeItems]
      · rw [he, hb]
        simp [flatten]
      · rw [he, hb, filter_flushNodes q buf hq]
    have hc : List.filter q (c :: cs) = [c].filter q ++ cs.filter q := by
      rw [← List.filter_append]
      rfl
    rw [hc, ← List.append_assoc, ← List.append_assoc, hstep]

theorem mem_flatten_index (x : Item) (ns : List Node) (h : x ∈ flatten ns) :
    ∃ (k : Nat) (n : Node), ns[k]? = some n ∧ x ∈ nodeItems n := by
  obtain ⟨n, hn, hx⟩ := (mem_flatten_iff x ns).mp h
  obtain ⟨k, hk⟩ := List.mem_iff_getElem?.mp hn
  exact ⟨k, n, hk, hx⟩

theorem mem_flatten_of_index (x : Item) (ns : List Node) (k : Nat) (n : Node)
    (hk : ns[k]? = some n) (hx : x ∈ nodeItems n) : x ∈ flatten ns :=
  (mem_flatten_iff x ns).mpr ⟨n, List.mem_iff_getElem?.mpr ⟨k, hk⟩, hx⟩

theorem flatten_take_drop (ns : List Node) (k : Nat) :
    flatten ns = flatten (ns.take k) ++ flatten (ns.drop k) := by
  rw [← flatten_append, List.take_append_drop]

/-- With no repeated item in the flattening, an item sits in one node only. -/
theorem nodup_index_unique (ns : List Node) :
    ∀ (i j : Nat) (n m : Node) (x : Item), (flatten ns).Nodup → ns[i]? = some n →
      ns[j]? = some m → x ∈ nodeItems n → x ∈ nodeItems m → i = j := by
  induction ns with
  | nil =>
    intro i j n m x _ hi
    simp at hi
  | cons a as ih =>
    intro i j n m x hnd hi hj hxn hxm
    simp only [flatten] at hnd
    have hdis := (List.nodup_append.mp hnd).2.2
    cases i with
    | zero =>
      cases j with
      | zero => rfl
      | succ j =>
        simp at hi hj
        subst hi
        exact absurd (mem_flatten_of_index x as j m hj hxm) (fun h => hdis hxn h)
    | succ i =>
      cases j with
      | zero =>
        simp at hi hj
        subst hj
        exact absurd (mem_flatten_of_index x as i n hi hxn) (fun h => hdis hxm h)
      | succ j =>
        simp at hi hj
        rw [ih i j n m x (List.nodup_append.mp hnd).2.1 hi hj hxn hxm]

/-! ## C1 and C2: the items of the nodes -/

/-- C1. For an input whose identities (`src`) are pairwise distinct, the items
read back from the hero, cluster and text nodes of `processFeed` are a
permutation of the input, no item is repeated, and every input item lies in
exactly one node. -/
theorem processFeed_items_perm (env : Env) (photos : List Item)
    (hd : (photos.map Item.src).Nodup) :
    (flatten (processFeed env photos).nodes).Perm photos ∧
    (flatten (processFeed env photos).nodes).Nodup ∧
    ∀ x ∈ photos, ∃! k : Nat, ∃ n, (processFeed env photos).nodes[k]? = some n ∧ x ∈ nodeItems n := by
  have hperm : (flatten (processFeed env photos).nodes).Perm photos := by
    rw [processFeed_nodes]
    simpa using out_perm env photos none []
  have hnd : (flatten (processFeed env photos).nodes).Nodup :=
    hperm.nodup_iff.mpr (List.Nodup.of_map Item.src hd)
  refine ⟨hperm, hnd, ?_⟩
  intro x hx
  obtain ⟨k, n, hk, hxn⟩ := mem_flatten_index x _ (hperm.mem_iff.mpr hx)
  refine ⟨k, ⟨n, hk, hxn⟩, ?_⟩
  rintro j ⟨m, hj, hxm⟩
  exact nodup_index_unique _ j k m n x hnd hj hk hxm hxn

/-- C1, on the sample trip. -/
theorem processFeed_items_perm_witness :
    (sampleTrip.map Item.src).Nodup ∧
    ((flatten (processFeed sampleEnv sampleTrip).nodes).Perm sampleTrip ∧
    (flatten (processFeed sampleEnv sampleTrip).nodes).Nodup ∧
    ∀ x ∈ sampleTrip, ∃! k : Nat, ∃ n,
      (processFeed sampleEnv sampleTrip).nodes[k]? = some n ∧ x ∈ nodeItems n) :=
  ⟨by decide, processFeed_items_perm sampleEnv sampleTrip (by decide)⟩

/-- C2, as stated, fails: a hero-intent photo buffered after an auto photo of
the same scene is emitted before it, so the items come back as `[b, a]`. -/
theorem processFeed_order_counterexample :
    flatten (processFeed sampleEnv heroAfterAuto).nodes ≠ heroAfterAuto := by
  decide

/-- C2, amended. For an input in which no item has `layoutIntent` hero, the
items read back from the nodes of `processFeed` are exactly the input list, in
its order. -/
theorem processFeed_order_no_hero (env : Env) (photos : List Item)
    (hh : ∀ x ∈ photos, x.layoutIntent ≠ some LayoutIntent.hero) :
    flatten (processFeed env photos).nodes = photos := by
  have hperm : (flatten (processFeed env photos).nodes).Perm photos := by
    rw [processFeed_nodes]
    simpa using out_perm env photos none []
  have hf := out_filter env (fun p => !isHero p)
    (by intro x y hx _ hqx; simp [hx] at hqx) photos none []
  rw [← processFeed_nodes] at hf
  have hall : ∀ l : List Item, (∀ x ∈ l, x.layoutIntent ≠ some LayoutIntent.hero) →
      l.filter (fun p => !isHero p) = l := by
    intro l hl
    rw [List.filter_eq_self]
    intro x hx
    simp [isHero, hl x hx]
  rw [List.nil_append, hall photos hh] at hf
  rw [hall _ (fun x hx => hh x (hperm.mem_iff.mp hx))] at hf
  exact hf

/-- C2 amended, on three photos taken within three hours. -/
theorem processFeed_order_no_hero_witness :
    (∀ x ∈ sampleTrip.take 3, x.layoutIntent ≠ some LayoutIntent.hero) ∧
    flatten (processFeed sampleEnv (sampleTrip.take 3)).nodes = sampleTrip.take 3 :=
  ⟨by decide, processFeed_order_no_hero sampleEnv (sampleTrip.take 3) (by decide)⟩

/-! ## Map nodes -/

theorem mapTriggered_iff (env : Env) (f t : Item) :
    mapTriggered env (some f) t = true ↔
      ∃ g1 g2, f.gps = some g1 ∧ t.gps = some g2 ∧
        TRAVEL_DIST_THRESHOLD < env.getDistance g1 g2 ∧ t.hideCheckpoint = false := by
  rcases Option.eq_none_or_eq_some f.gps with h1 | ⟨g1, h1⟩
  · simp [mapTriggered, h1]
  · rcases Option.eq_none_or_eq_some t.gps with h2 | ⟨g2, h2⟩
    · simp [mapTriggered, h1, h2]
    · simp [mapTriggered, h1, h2]

theorem clusterNodes_cases (cl : List Item) :
    clusterNodes cl = [] ∧ cl = [] ∨
    (∃ c, cl = [c] ∧ c.layoutIntent ≠ some LayoutIntent.cluster ∧ clusterNodes cl = [Node.hero c]) ∨
    (clusterNodes cl = [Node.cluster cl] ∧ cl ≠ [] ∧
      ∀ c, cl = [c] → c.layoutIntent = some LayoutIntent.cluster) := by
  cases cl with
  | nil => left; exact ⟨rfl, rfl⟩
  | cons c cs =>
    right
    by_cases h : (c :: cs).length = 1 ∧ c.layoutIntent ≠ some LayoutIntent.cluster
    · left
      have hcs : cs = [] := by
        have := h.1
        simp at this
        exact this
      subst hcs
      exact ⟨c, rfl, h.2, by simp [clusterNodes, h.2]⟩
    · right
      refine ⟨by unfold clusterNodes; simp only [h, if_false], by simp, ?_⟩
      intro d hd
      by_contra hne
      apply h
      simp only [List.cons.injEq] at hd
      obtain ⟨h1, h2⟩ := hd
      subst h1 h2
      exact ⟨rfl, hne⟩

/-- A flush appends hero and cluster nodes only. -/
theorem flushNodes_mem (buf : List Item) (n : Node) (h : n ∈ flushNodes buf) :
    (∃ x, n = Node.hero x ∧ x ∈ buf ∧ (isHero x = true ∨
        (buf.filter (fun p => !isHero p) = [x] ∧ x.layoutIntent ≠ some LayoutIntent.cluster))) ∨
    (n = Node.cluster (buf.filter (fun p => !isHero p)) ∧
      buf.filter (fun p => !isHero p) ≠ [] ∧
      ∀ c, buf.filter (fun p => !isHero p) = [c] → c.layoutIntent = some LayoutIntent.cluster) := by
  unfold flushNodes at h
  rcases List.mem_append.mp h with h1 | h2
  · left
    obtain ⟨x, hx, rfl⟩ := List.mem_map.mp h1
    have := List.mem_filter.mp hx
    exact ⟨x, rfl, this.1, Or.inl this.2⟩
  · rcases clusterNodes_cases (buf.filter (fun p => !isHero p)) with ⟨he, _⟩ | ⟨c, hc, hi, he⟩ |
        ⟨he, hne, hall⟩
    · rw [he] at h2
      simp at h2
    · left
      rw [he] at h2
      simp at h2
      have hcm : c ∈ buf.filter (fun p => !isHero p) := by rw [hc]; simp
      exact ⟨c, h2, (List.mem_filter.mp hcm).1, Or.inr ⟨hc, hi⟩⟩
    · right
      rw [he] at h2
      simp at h2
      exact ⟨h2, hne, hall⟩

theorem flushNodes_not_map (buf : List Item) : ∀ n ∈ flushNodes buf, isMap n = false := by
  intro n hn
  rcases flushNodes_mem buf n hn with ⟨x, rfl, _⟩ | ⟨rfl, _⟩ <;> rfl

theorem mapsBetween_append (X : List Node) (hX : ∀ n ∈ X, isMap n = false) :
    ∀ (E : List Item) (Y : List Node),
      MapsBetween (E ++ flatten X) Y → MapsBetween E (X ++ Y) := by
  induction X with
  | nil =>
    intro E Y h
    simpa [flatten] using h
  | cons a as ih =>
    intro E Y h
    have ha : isMap a = false := hX a (List.mem_cons_self a as)
    have hrest := ih (fun n hn => hX n (List.mem_cons_of_mem a hn)) (E ++ nodeItems a) Y
      (by simpa [flatten, List.append_assoc] using h)
    cases a with
    | map f t => simp [isMap] at ha
    | hero x => exact ⟨trivial, hrest⟩
    | cluster xs => exact ⟨trivial, hrest⟩
    | text x => exact ⟨trivial, hrest⟩

theorem out_mapsBetween (env : Env) (rest : List Item) :
    ∀ (prev : Option Item) (buf E : List Item), (∀ p, prev = some p → p ∈ E ++ buf) →
      MapsBetween E (out env prev rest buf) := by
  induction rest with
  | nil =>
    intro prev buf E _
    simp only [out]
    have := mapsBetween_append (flushNodes buf) (flushNodes_not_map buf) E []
      (by simp [MapsBetween])
    simpa using this
  | cons c cs ih =>
    intro prev buf E hprev
    simp only [out]
    rcases emitted_cases env prev c buf with ⟨_, he, hb⟩ | ⟨_, ⟨p, hp, _, he⟩, hb⟩ |
        ⟨_, _, _, he, hb⟩ | ⟨_, _, _, he, hb⟩
    · rw [he, hb]
      apply mapsBetween_append
      · intro n hn
        rcases List.mem_append.mp hn with h | h
        · exact flushNodes_not_map buf n h
        · simp at h
          subst h
          rfl
      · apply ih
        intro q hq
        cases hq
        simp [flatten_append, flatten, nodeItems]
    · rw [he, hb, List.append_assoc]
      apply mapsBetween_append _ (flushNodes_not_map buf)
      refine ⟨⟨?_, ?_⟩, ?_⟩
      · have := hprev p hp
        rcases List.mem_append.mp this with h | h
        · exact List.mem_append_left _ h
        · exact List.mem_append_right _ ((flushNodes_perm buf).mem_iff.mpr h)
      · exact (out_perm env cs (some c) [c]).mem_iff.mpr (by simp)
      · apply ih
        intro q hq
        cases hq
        simp
    · rw [he, hb]
      apply ih
      intro q hq
      cases hq
      simp
    · rw [he, hb]
      apply mapsBetween_append _ (flushNodes_not_map buf)
      apply ih
      intro q hq
      cases hq
      simp

theorem mapsBetween_index (ns : List Node) :
    ∀ (E : List Item) (k : Nat) (f t : Item), MapsBetween E ns → ns[k]? = some (Node.map f t) →
      f ∈ E ++ flatten (ns.take k) ∧ t ∈ flatten (ns.drop (k + 1)) := by
  induction ns with
  | nil =>
    intro E k f t _ hk
    simp at hk
  | cons a as ih =>
    intro E k f t hm hk
    cases k with
    | zero =>
      simp at hk
      subst hk
      have := hm.1
      simpa [flatten] using this
    | succ k =>
      simp at hk
      have := ih (E ++ nodeItems a) k f t hm.2 hk
      simpa [flatten, List.append_assoc] using this

theorem getElem?_take_some {α : Type} (l : List α) (k i : Nat) (a : α)
    (h : (l.take k)[i]? = some a) : i < k ∧ l[i]? = some a := by
  by_cases hik : i < k
  · exact ⟨hik, by rw [← List.getElem?_take_of_lt hik]; exact h⟩
  · rw [List.getElem?_take_eq_none (Nat.le_of_not_lt hik)] at h
    cases h

/-- A node list cut at a node: the cut is an index, items before it lie at
smaller indices and items after it at larger ones. -/
theorem split_indices (N1 N2 : List Node) (n : Node) (x y : Item)
    (hx : x ∈ flatten N1) (hy : y ∈ flatten N2) :
    ∃ (a k b : Nat) (na nb : Node), a < k ∧ k < b ∧ (N1 ++ n :: N2)[k]? = some n ∧
      (N1 ++ n :: N2)[a]? = some na ∧ x ∈ nodeItems na ∧
      (N1 ++ n :: N2)[b]? = some nb ∧ y ∈ nodeItems nb := by
  obtain ⟨a, na, ha, hxa⟩ := mem_flatten_index x N1 hx
  obtain ⟨b, nb, hb, hyb⟩ := mem_flatten_index y N2 hy
  have hlt : a < N1.length := by
    by_contra hge
    rw [List.getElem?_eq_none (Nat.le_of_not_lt hge)] at ha
    cases ha
  refine ⟨a, N1.length, N1.length + 1 + b, na, nb, hlt, by omega, ?_, ?_, hxa, ?_, hyb⟩
  · rw [List.getElem?_append_right (Nat.le_refl _)]
    simp
  · rw [List.getElem?_append_left hlt]
    exact ha
  · rw [List.getElem?_append_right (by omega)]
    have : N1.length + 1 + b - N1.length = b + 1 := by omega
    rw [this]
    simpa using hb

/-! ## C3: a map node lies between the nodes of its two items -/

/-- C3. For an input with pairwise distinct identities and a map node at index
`k` of the nodes of `processFeed`: its `from` item lies in a node of smaller
index, its `to` item in a node of larger index, and every node holding the
`from` item has an index below `k`, every node holding the `to` item an index
above `k`. -/
theorem map_node_between (env : Env) (photos : List Item)
    (hd : (photos.map Item.src).Nodup) (k : Nat) (f t : Item)
    (hk : (processFeed env photos).nodes[k]? = some (Node.map f t)) :
    (∃ (i : Nat) (n : Node), i < k ∧ (processFeed env photos).nodes[i]? = some n ∧
        f ∈ nodeItems n) ∧
    (∃ (j : Nat) (n : Node), k < j ∧ (processFeed env photos).nodes[j]? = some n ∧
        t ∈ nodeItems n) ∧
    (∀ (i : Nat) (n : Node), (processFeed env photos).nodes[i]? = some n →
        f ∈ nodeItems n → i < k) ∧
    (∀ (j : Nat) (n : Node), (processFeed env photos).nodes[j]? = some n →
        t ∈ nodeItems n → k < j) := by
  have hperm : (flatten (processFeed env photos).nodes).Perm photos := by
    rw [processFeed_nodes]
    simpa using out_perm env photos none []
  have hnd : (flatten (processFeed env photos).nodes).Nodup :=
    hperm.nodup_iff.mpr (List.Nodup.of_map Item.src hd)
  have hmb : MapsBetween [] (processFeed env photos).nodes := by
    rw [processFeed_nodes]
    exact out_mapsBetween env photos none [] [] (by intro p hp; cases hp)
  obtain ⟨hf, ht⟩ := mapsBetween_index _ [] k f t hmb hk
  rw [List.nil_append] at hf
  obtain ⟨i, n, hi, hfn⟩ := mem_flatten_index f _ hf
  obtain ⟨hik, hi⟩ := getElem?_take_some _ k i n hi
  obtain ⟨j, m, hj, htm⟩ := mem_flatten_index t _ ht
  rw [List.getElem?_drop] at hj
  refine ⟨⟨i, n, hik, hi, hfn⟩, ⟨k + 1 + j, m, by omega, hj, htm⟩, ?_, ?_⟩
  · intro i2 n2 hi2 hfn2
    rw [nodup_index_unique _ i2 i n2 n f hnd hi2 hi hfn2 hfn]
    exact hik
  · intro j2 m2 hj2 htm2
    rw [nodup_index_unique _ j2 (k + 1 + j) m2 m t hnd hj2 hj htm2 htm]
    omega

/-- C3, on the travel pair: the map node is at index 1. -/
theorem map_node_between_witness :
    (travelPair.map Item.src).Nodup ∧
    (processFeed sampleEnv travelPair).nodes[1]? =
      some (Node.map (photoIn "c.jpg" (11 * hour + 1800000) telAviv none)
        (photoIn "d.jpg" (33 * hour) miami (some "Miami Beach"))) ∧
    ((∃ (i : Nat) (n : Node), i < 1 ∧ (processFeed sampleEnv travelPair).nodes[i]? = some n ∧
        photoIn "c.jpg" (11 * hour + 1800000) telAviv none ∈ nodeItems n) ∧
    (∃ (j : Nat) (n : Node), 1 < j ∧ (processFeed sampleEnv travelPair).nodes[j]? = some n ∧
        photoIn "d.jpg" (33 * hour) miami (some "Miami Beach") ∈ nodeItems n) ∧
    (∀ (i : Nat) (n : Node), (processFeed sampleEnv travelPair).nodes[i]? = some n →
        photoIn "c.jpg" (11 * hour + 1800000) telAviv none ∈ nodeItems n → i < 1) ∧
    (∀ (j : Nat) (n : Node), (processFeed sampleEnv travelPair).nodes[j]? = some n →
        photoIn "d.jpg" (33 * hour) miami (some "Miami Beach") ∈ nodeItems n → 1 < j)) :=
  ⟨by decide, by decide, map_node_between sampleEnv travelPair (by decide) 1 _ _ (by decide)⟩

/-! ## Consecutive input items -/

theorem adjacent_split {α : Type} (l : List α) :
    ∀ (i : Nat) (a b : α), l[i]? = some a → l[i + 1]? = some b →
      ∃ pre post, l = pre ++ a :: b :: post := by
  induction l with
  | nil =>
    intro i a b h
    simp at h
  | cons x xs ih =>
    intro i a b ha hb
    cases i with
    | zero =>
      simp at ha
      subst ha
      cases xs with
      | nil => simp at hb
      | cons y ys =>
        simp at hb
        subst hb
        exact ⟨[], ys, rfl⟩
    | succ i =>
      simp at ha hb
      obtain ⟨pre, post, h⟩ := ih i a b ha hb
      exact ⟨x :: pre, post, by rw [h]; rfl⟩

theorem split_adjacent {α : Type} (pre post : List α) (a b : α) :
    (pre ++ a :: b :: post)[pre.length]? = some a ∧
    (pre ++ a :: b :: post)[pre.length + 1]? = some b := by
  constructor
  · rw [List.getElem?_append_right (Nat.le_refl _)]
    simp
  · rw [List.getElem?_append_right (by omega)]
    have : pre.length + 1 - pre.length = 1 := by omega
    rw [this]
    simp

/-- The run reaches the iteration after `prev` with `prev` either emitted as a
text node or sitting last in the buffer; the nodes appended so far and the
buffer hold the items seen so far. -/
theorem out_reach (env : Env) (prev : Item) (rest : List Item) (pre : List Item) :
    ∀ (p : Option Item) (buf : List Item),
      ∃ (N0 : List Node) (b1 : List Item),
        out env p (pre ++ prev :: rest) buf = N0 ++ out env (some prev) rest b1 ∧
        ((prev.type = ItemType.text ∧ b1 = [] ∧ prev ∈ flatten N0) ∨
         (prev.type ≠ ItemType.text ∧ ∃ b, b1 = b ++ [prev])) ∧
        (flatten N0 ++ b1).Perm (buf ++ (pre ++ [prev])) := by
  induction pre with
  | nil =>
    intro p buf
    refine ⟨emitted env p prev buf, nextBuffer env p prev buf, by simp [out], ?_,
      by simpa using emitted_perm env p prev buf⟩
    rcases emitted_cases env p prev buf with ⟨ht, he, hb⟩ | ⟨ht, _, hb⟩ |
        ⟨ht, _, _, _, hb⟩ | ⟨ht, _, _, _, hb⟩
    · left
      exact ⟨ht, hb, by rw [he]; simp [flatten_append, flatten, nodeItems]⟩
    · right; exact ⟨ht, [], by rw [hb]; rfl⟩
    · right; exact ⟨ht, buf, hb⟩
    · right; exact ⟨ht, [], by rw [hb]; rfl⟩
  | cons a as ih =>
    intro p buf
    obtain ⟨N0, b1, h, hcase, hperm⟩ := ih (some a) (nextBuffer env p a buf)
    refine ⟨emitted env p a buf ++ N0, b1, ?_, ?_, ?_⟩
    · show emitted env p a buf ++ out env (some a) (as ++ prev :: rest) (nextBuffer env p a buf)
        = _
      rw [h, List.append_assoc]
    · rcases hcase with ⟨ht, hb, hm⟩ | hr
      · left
        exact ⟨ht, hb, by rw [flatten_append]; exact List.mem_append_right _ hm⟩
      · right; exact hr
    · rw [flatten_append, List.append_assoc]
      have h1 := hperm.append_left (flatten (emitted env p a buf))
      have h2 := (emitted_perm env p a buf).append_right (as ++ [prev])
      refine h1.trans ?_
      simpa [List.append_assoc] using h2

/-! ## C4: a travel gap yields a map node between the two items -/

/-- C4. For consecutive input items `prev`, `curr` where `curr` is a photo,
both have a `gps`, their distance exceeds `TRAVEL_DIST_THRESHOLD` and
`curr.hideCheckpoint` is false, the nodes of `processFeed` hold a map node from
`prev` to `curr` at an index above a node holding `prev` and below a node
holding `curr`. -/
theorem map_node_emitted (env : Env) (photos : List Item) (i : Nat) (prev curr : Item)
    (g1 g2 : Gps) (hp : photos[i]? = some prev) (hc : photos[i + 1]? = some curr)
    (hph : curr.type ≠ ItemType.text) (hg1 : prev.gps = some g1) (hg2 : curr.gps = some g2)
    (hdist : TRAVEL_DIST_THRESHOLD < env.getDistance g1 g2)
    (hh : curr.hideCheckpoint = false) :
    ∃ (a k b : Nat) (na nb : Node), a < k ∧ k < b ∧
      (processFeed env photos).nodes[k]? = some (Node.map prev curr) ∧
      (processFeed env photos).nodes[a]? = some na ∧ prev ∈ nodeItems na ∧
      (processFeed env photos).nodes[b]? = some nb ∧ curr ∈ nodeItems nb := by
  obtain ⟨pre, post, hsplit⟩ := adjacent_split photos i prev curr hp hc
  have hmt : mapTriggered env (some prev) curr = true :=
    (mapTriggered_iff env prev curr).mpr ⟨g1, g2, hg1, hg2, hdist, hh⟩
  obtain ⟨N0, b1, hout, hcase, _⟩ := out_reach env prev (curr :: post) pre none []
  have hem : emitted env (some prev) curr b1 = flushNodes b1 ++ [Node.map prev curr] ∧
      nextBuffer env (some prev) curr b1 = [curr] := by
    rcases emitted_cases env (some prev) curr b1 with ⟨ht, _⟩ | ⟨_, ⟨p, hpe, _, he⟩, hb⟩ |
        ⟨_, hm, _⟩ | ⟨_, hm, _⟩
    · exact absurd ht hph
    · cases hpe
      exact ⟨he, hb⟩
    · rw [hmt] at hm; cases hm
    · rw [hmt] at hm; cases hm
  have hnodes : (processFeed env photos).nodes =
      (N0 ++ flushNodes b1) ++ Node.map prev curr :: out env (some curr) post [curr] := by
    rw [processFeed_nodes, hsplit, hout]
    simp only [out, hem.1, hem.2, List.append_assoc, List.singleton_append]
  have hprev : prev ∈ flatten (N0 ++ flushNodes b1) := by
    rw [flatten_append]
    rcases hcase with ⟨_, _, hm⟩ | ⟨_, b, hb⟩
    · exact List.mem_append_left _ hm
    · apply List.mem_append_right
      rw [(flushNodes_perm b1).mem_iff, hb]
      simp
  have hcurr : curr ∈ flatten (out env (some curr) post [curr]) := by
    rw [(out_perm env post (some curr) [curr]).mem_iff]
    simp
  rw [hnodes]
  exact split_indices _ _ _ prev curr hprev hcurr

/-- C4, on the travel pair. -/
theorem map_node_emitted_witness :
    ∃ (a k b : Nat) (na nb : Node), a < k ∧ k < b ∧
      (processFeed sampleEnv travelPair).nodes[k]? =
        some (Node.map (photoIn "c.jpg" (11 * hour + 1800000) telAviv none)
          (photoIn "d.jpg" (33 * hour) miami (some "Miami Beach"))) ∧
      (processFeed sampleEnv travelPair).nodes[a]? = some na ∧
      photoIn "c.jpg" (11 * hour + 1800000) telAviv none ∈ nodeItems na ∧
      (processFeed sampleEnv travelPair).nodes[b]? = some nb ∧
      photoIn "d.jpg" (33 * hour) miami (some "Miami Beach") ∈ nodeItems nb :=
  map_node_emitted sampleEnv travelPair 0 _ _ telAviv miami (by decide) (by decide)
    (by decide) (by decide) (by decide) (by decide) (by decide)

/-! ## C5: every map node comes from a travel gap -/

theorem out_map_mem (env : Env) (f t : Item) (rest : List Item) :
    ∀ (prev : Option Item) (buf : List Item), Node.map f t ∈ out env prev rest buf →
      mapTriggered env (some f) t = true ∧ t.type ≠ ItemType.text ∧
      ∃ pre post, prev.toList ++ rest = pre ++ f :: t :: post := by
  induction rest with
  | nil =>
    intro prev buf h
    have := flushNodes_not_map buf _ h
    simp [isMap] at this
  | cons c cs ih =>
    intro prev buf h
    simp only [out] at h
    have hnf : Node.map f t ∉ flushNodes buf := by
      intro hm
      have := flushNodes_not_map buf _ hm
      simp [isMap] at this
    rcases List.mem_append.mp h with h1 | h2
    · rcases emitted_cases env prev c buf with ⟨_, he, _⟩ | ⟨ht, ⟨p, hp, hmt, he⟩, _⟩ |
          ⟨_, _, _, he, _⟩ | ⟨_, _, _, he, _⟩
      · rw [he] at h1
        rcases List.mem_append.mp h1 with h | h
        · exact absurd h hnf
        · simp at h
      · rw [he] at h1
        rcases List.mem_append.mp h1 with h | h
        · exact absurd h hnf
        · simp at h
          obtain ⟨hf, htc⟩ := h
          subst hf htc
          subst hp
          exact ⟨hmt, ht, [], cs, rfl⟩
      · rw [he] at h1
        simp at h1
      · rw [he] at h1
        exact absurd h1 hnf
    · obtain ⟨hmt, ht, pre, post, hs⟩ := ih (some c) _ h2
      refine ⟨hmt, ht, prev.toList ++ pre, post, ?_⟩
      simp only [Option.toList, List.singleton_append] at hs
      rw [hs, List.append_assoc]

/-- C5. Every map node of `processFeed` joins two items that are adjacent in
the input (`from` immediately before `to`), both with a `gps`, at a distance
strictly greater than `TRAVEL_DIST_THRESHOLD`, which is 5000, and with
`to.hideCheckpoint` false; so a pair exactly 5000 apart, or whose second item
hides its checkpoint, gives no map node. -/
theorem map_node_sound (env : Env) (photos : List Item) (f t : Item)
    (h : Node.map f t ∈ (processFeed env photos).nodes) :
    (∃ i : Nat, photos[i]? = some f ∧ photos[i + 1]? = some t) ∧
    (∃ g1 g2, f.gps = some g1 ∧ t.gps = some g2 ∧ TRAVEL_DIST_THRESHOLD < env.getDistance g1 g2 ∧
      5000 < env.getDistance g1 g2) ∧
    t.hideCheckpoint = false := by
  rw [processFeed_nodes] at h
  obtain ⟨hmt, _, pre, post, hs⟩ := out_map_mem env f t photos none [] h
  simp only [Option.toList, List.nil_append] at hs
  obtain ⟨g1, g2, h1, h2, h3, h4⟩ := (mapTriggered_iff env f t).mp hmt
  refine ⟨⟨pre.length, ?_⟩, ⟨g1, g2, h1, h2, h3, h3⟩, h4⟩
  rw [hs]
  exact split_adjacent pre post f t

/-- C5, on the map node of the travel pair. -/
theorem map_node_sound_witness :
    (∃ i : Nat, travelPair[i]? = some (photoIn "c.jpg" (11 * hour + 1800000) telAviv none) ∧
      travelPair[i + 1]? = some (photoIn "d.jpg" (33 * hour) miami (some "Miami Beach"))) ∧
    (∃ g1 g2, (photoIn "c.jpg" (11 * hour + 1800000) telAviv none).gps = some g1 ∧
      (photoIn "d.jpg" (33 * hour) miami (some "Miami Beach")).gps = some g2 ∧
      TRAVEL_DIST_THRESHOLD < sampleEnv.getDistance g1 g2 ∧
      5000 < sampleEnv.getDistance g1 g2) ∧
    (photoIn "d.jpg" (33 * hour) miami (some "Miami Beach")).hideCheckpoint = false :=
  map_node_sound sampleEnv travelPair _ _ (by decide)

/-! ## Scenes: which consecutive items share a cluster -/

theorem adjacent_take_drop {α : Type} (l : List α) :
    ∀ (i : Nat) (a b : α), l[i]? = some a → l[i + 1]? = some b →
      l = l.take i ++ a :: b :: l.drop (i + 2) ∧ l.take (i + 1) = l.take i ++ [a] ∧
      l.drop (i + 1) = b :: l.drop (i + 2) := by
  induction l with
  | nil =>
    intro i a b h
    simp at h
  | cons x xs ih =>
    intro i a b ha hb
    cases i with
    | zero =>
      simp at ha
      subst ha
      cases xs with
      | nil => simp at hb
      | cons y ys =>
        simp at hb
        subst hb
        simp
    | succ i =>
      simp at ha hb
      obtain ⟨h1, h2, h3⟩ := ih i a b ha hb
      refine ⟨?_, ?_, ?_⟩
      · simp only [List.take_succ_cons, List.drop_succ_cons, List.cons_append]
        rw [← h1]
      · simp only [List.take_succ_cons, List.cons_append]
        rw [h2]
      · simp only [List.drop_succ_cons]
        exact h3

theorem joins_concat (curr prev : Item) (b : List Item) (hi : curr.layoutIntent = none) :
    joins curr (b ++ [prev]) =
      (withinThreshold (timeDiff curr.date prev.date) || sameFolder curr prev) := by
  unfold joins
  rw [hi, List.getLast?_concat]

/-- The first flush of a run holds the whole pending buffer. -/
theorem out_first_flush (env : Env) (rest : List Item) :
    ∀ (p : Option Item) (buf : List Item),
      ∃ (more : List Item) (N : List Node),
        out env p rest buf = flushNodes (buf ++ more) ++ N := by
  induction rest with
  | nil =>
    intro p buf
    exact ⟨[], [], by simp [out]⟩
  | cons c cs ih =>
    intro p buf
    simp only [out]
    rcases emitted_cases env p c buf with ⟨_, he, _⟩ | ⟨_, ⟨q, _, _, he⟩, _⟩ |
        ⟨_, _, _, he, hb⟩ | ⟨_, _, _, he, _⟩
    · exact ⟨[], [Node.text c] ++ out env (some c) cs (nextBuffer env p c buf),
        by rw [he, List.append_nil, List.append_assoc]⟩
    · exact ⟨[], [Node.map q c] ++ out env (some c) cs (nextBuffer env p c buf),
        by rw [he, List.append_nil, List.append_assoc]⟩
    · obtain ⟨more, N, h⟩ := ih (some c) (buf ++ [c])
      exact ⟨c :: more, N, by rw [he, hb, h]; simp⟩
    · exact ⟨[], out env (some c) cs (nextBuffer env p c buf), by rw [he, List.append_nil]⟩

/-- Two non-hero items side by side in a buffer end up side by side in the
cluster node of its flush. -/
theorem flushNodes_pair (b more : List Item) (x y : Item)
    (hx : isHero x = false) (hy : isHero y = false) :
    ∃ items, Node.cluster items ∈ flushNodes (b ++ [x, y] ++ more) ∧ [x, y] <:+: items := by
  have hf : (b ++ [x, y] ++ more).filter (fun p => !isHero p) =
      b.filter (fun p => !isHero p) ++ [x, y] ++ more.filter (fun p => !isHero p) := by
    simp [List.filter_append, List.filter_cons, hx, hy]
  refine ⟨(b ++ [x, y] ++ more).filter (fun p => !isHero p), ?_, ?_⟩
  · unfold flushNodes
    apply List.mem_append_right
    rcases clusterNodes_cases ((b ++ [x, y] ++ more).filter (fun p => !isHero p)) with
        ⟨_, he⟩ | ⟨c, hc, _⟩ | ⟨he, _⟩
    · rw [hf] at he
      simp at he
    · rw [hf] at hc
      have := congrArg List.length hc
      simp at this
      omega
    · rw [he]
      simp
  · rw [hf]
    exact List.infix_append _ _ _

theorem isHero_false_of_ne (x : Item) (h : x.layoutIntent ≠ some LayoutIntent.hero) :
    isHero x = false := by
  simp [isHero, h]

/-- Consecutive photos that the auto test joins share a cluster node. -/
theorem out_pair_joined (env : Env) (pre post : List Item) (prev curr : Item)
    (hpt : prev.type ≠ ItemType.text) (hct : curr.type ≠ ItemType.text)
    (hci : curr.layoutIntent = none) (hpi : prev.layoutIntent ≠ some LayoutIntent.hero)
    (hm : mapTriggered env (some prev) curr = false)
    (hj : (withinThreshold (timeDiff curr.date prev.date) || sameFolder curr prev) = true) :
    ∃ items, Node.cluster items ∈ out env none (pre ++ prev :: curr :: post) [] ∧
      [prev, curr] <:+: items := by
  obtain ⟨N0, b1, hout, hcase, _⟩ := out_reach env prev (curr :: post) pre none []
  rcases hcase with ⟨ht, _⟩ | ⟨_, b, hb⟩
  · exact absurd ht hpt
  · subst hb
    have hjoin : joins curr (b ++ [prev]) = true := by rw [joins_concat curr prev b hci, hj]
    have hem : emitted env (some prev) curr (b ++ [prev]) = [] ∧
        nextBuffer env (some prev) curr (b ++ [prev]) = b ++ [prev] ++ [curr] := by
      rcases emitted_cases env (some prev) curr (b ++ [prev]) with ⟨ht, _⟩ |
          ⟨_, ⟨p, hpe, hmt, _⟩, _⟩ | ⟨_, _, _, he, hnb⟩ | ⟨_, _, hjf, _⟩
      · exact absurd ht hct
      · cases hpe
        rw [hm] at hmt
        cases hmt
      · exact ⟨he, hnb⟩
      · rw [hjoin] at hjf
        cases hjf
    obtain ⟨more, N, hfl⟩ := out_first_flush env post (some curr) (b ++ [prev] ++ [curr])
    have hci2 : isHero curr = false := by simp [isHero, hci]
    obtain ⟨items, hmem, hinf⟩ := flushNodes_pair b more prev curr
      (isHero_false_of_ne prev hpi) hci2
    refine ⟨items, ?_, hinf⟩
    rw [hout]
    simp only [out, hem.1, hem.2, List.nil_append, hfl]
    apply List.mem_append_right
    apply List.mem_append_left
    simpa [List.append_assoc] using hmem

/-- Consecutive photos that the auto test separates: the node list splits
into the nodes of the items up to `prev` and the nodes of the items from
`curr` on. -/
theorem out_pair_split (env : Env) (pre post : List Item) (prev curr : Item)
    (hpt : prev.type ≠ ItemType.text) (hct : curr.type ≠ ItemType.text)
    (hci : curr.layoutIntent = none)
    (hm : mapTriggered env (some prev) curr = false)
    (hj : (withinThreshold (timeDiff curr.date prev.date) || sameFolder curr prev) = false) :
    ∃ N1 N2, out env none (pre ++ prev :: curr :: post) [] = N1 ++ N2 ∧
      (flatten N1).Perm (pre ++ [prev]) ∧ (flatten N2).Perm (curr :: post) := by
  obtain ⟨N0, b1, hout, hcase, hperm⟩ := out_reach env prev (curr :: post) pre none []
  rcases hcase with ⟨ht, _⟩ | ⟨_, b, hb⟩
  · exact absurd ht hpt
  · subst hb
    have hjoin : joins curr (b ++ [prev]) = false := by rw [joins_concat curr prev b hci, hj]
    have hem : emitted env (some prev) curr (b ++ [prev]) = flushNodes (b ++ [prev]) ∧
        nextBuffer env (some prev) curr (b ++ [prev]) = [curr] := by
      rcases emitted_cases env (some prev) curr (b ++ [prev]) with ⟨ht, _⟩ |
          ⟨_, ⟨p, hpe, hmt, _⟩, _⟩ | ⟨_, _, hjt, _⟩ | ⟨_, _, _, he, hnb⟩
      · exact absurd ht hct
      · cases hpe
        rw [hm] at hmt
        cases hmt
      · rw [hjoin] at hjt
        cases hjt
      · exact ⟨he, hnb⟩
    refine ⟨N0 ++ flushNodes (b ++ [prev]), out env (some curr) post [curr], ?_, ?_, ?_⟩
    · rw [hout]
      simp only [out, hem.1, hem.2, List.append_assoc]
    · rw [flatten_append]
      refine ((flushNodes_perm (b ++ [prev])).append_left (flatten N0)).trans ?_
      simpa using hperm
    · simpa using out_perm env post (some curr) [curr]

theorem bool_or_false_of_not (a b : Bool) (h : ¬ (a = true ∨ b = true)) :
    (a || b) = false := by
  cases a <;> cases b <;> simp at h ⊢

/-! ## C6 and C7: when two consecutive photos share a cluster -/

/-- C6, as stated, fails twice over. Two auto photos exactly three hours apart
(so at most three hours apart) become two hero nodes, because the test is
`timeDiff < CLUSTER_TIME_THRESHOLD`; and two auto photos one hour apart but
more than 5000 apart are separated by the flush of the map branch. -/
theorem same_cluster_counterexample :
    (timeDiff (photoAt "b.jpg" (3 * hour)).date (photoAt "a.jpg" 0).date
        = some CLUSTER_TIME_THRESHOLD ∧
      ¬ ∃ items, Node.cluster items ∈ (processFeed sampleEnv threeHoursApart).nodes ∧
        photoAt "a.jpg" 0 ∈ items ∧ photoAt "b.jpg" (3 * hour) ∈ items) ∧
    (timeDiff (photoIn "b.jpg" hour miami none).date (photoIn "a.jpg" 0 telAviv none).date
        = some 3600000 ∧
      ¬ ∃ items, Node.cluster items ∈ (processFeed sampleEnv quickTravel).nodes ∧
        photoIn "a.jpg" 0 telAviv none ∈ items ∧ photoIn "b.jpg" hour miami none ∈ items) := by
  have h1 : (processFeed sampleEnv threeHoursApart).nodes =
      [Node.hero (photoAt "a.jpg" 0), Node.hero (photoAt "b.jpg" (3 * hour))] := by decide
  have h2 : (processFeed sampleEnv quickTravel).nodes =
      [Node.hero (photoIn "a.jpg" 0 telAviv none),
       Node.map (photoIn "a.jpg" 0 telAviv none) (photoIn "b.jpg" hour miami none),
       Node.hero (photoIn "b.jpg" hour miami none)] := by decide
  refine ⟨⟨by decide, ?_⟩, ⟨by decide, ?_⟩⟩
  · rw [h1]
    simp
  · rw [h2]
    simp

/-- C6, amended. For two consecutive input photos with no `layoutIntent`
whose timestamps are strictly less than `CLUSTER_TIME_THRESHOLD` apart and at
which no map node is triggered, one cluster node of `processFeed` holds both,
side by side. -/
theorem same_cluster_within (env : Env) (photos : List Item) (i : Nat) (prev curr : Item)
    (hp : photos[i]? = some prev) (hc : photos[i + 1]? = some curr)
    (hpt : prev.type ≠ ItemType.text) (hct : curr.type ≠ ItemType.text)
    (hpi : prev.layoutIntent = none) (hci : curr.layoutIntent = none)
    (hm : mapTriggered env (some prev) curr = false)
    (hw : withinThreshold (timeDiff curr.date prev.date) = true) :
    ∃ items, Node.cluster items ∈ (processFeed env photos).nodes ∧
      [prev, curr] <:+: items ∧ prev ∈ items ∧ curr ∈ items := by
  obtain ⟨pre, post, hsplit⟩ := adjacent_split photos i prev curr hp hc
  obtain ⟨items, hmem, hinf⟩ := out_pair_joined env pre post prev curr hpt hct hci
    (by rw [hpi]; simp) hm (by rw [hw]; rfl)
  refine ⟨items, by rw [processFeed_nodes, hsplit]; exact hmem, hinf, ?_, ?_⟩
  · exact hinf.subset (by simp)
  · exact hinf.subset (by simp)

/-- C6 amended, on the first two photos of the sample trip. -/
theorem same_cluster_within_witness :
    ∃ items, Node.cluster items ∈ (processFeed sampleEnv sampleTrip).nodes ∧
      [photoIn "a.jpg" (9 * hour) telAviv (some "Tel Aviv-Yafo"),
        photoIn "b.jpg" (10 * hour) telAviv none] <:+: items ∧
      photoIn "a.jpg" (9 * hour) telAviv (some "Tel Aviv-Yafo") ∈ items ∧
      photoIn "b.jpg" (10 * hour) telAviv none ∈ items :=
  same_cluster_within sampleEnv sampleTrip 0 _ _ (by decide) (by decide) (by decide)
    (by decide) (by decide) (by decide) (by decide) (by decide)

/-- C7. For consecutive input photos `prev`, `curr` where `curr` has no
`layoutIntent`, `prev` has not hero intent and no map node is triggered at
`curr`: if the timestamps are less than three hours apart or `curr.folder` is
non-empty and equal to `prev.folder`, one cluster node holds both side by
side; otherwise the node list splits into the nodes of the items up to `prev`
and the nodes of the items from `curr` on; so, the input items being pairwise
distinct, a cluster node holds both exactly when the test succeeds. -/
theorem same_cluster_iff (env : Env) (photos : List Item) (i : Nat) (prev curr : Item)
    (hp : photos[i]? = some prev) (hc : photos[i + 1]? = some curr)
    (hpt : prev.type ≠ ItemType.text) (hct : curr.type ≠ ItemType.text)
    (hci : curr.layoutIntent = none) (hpi : prev.layoutIntent ≠ some LayoutIntent.hero)
    (hm : mapTriggered env (some prev) curr = false) :
    ((withinThreshold (timeDiff curr.date prev.date) = true ∨ sameFolder curr prev = true) →
      ∃ items, Node.cluster items ∈ (processFeed env photos).nodes ∧ [prev, curr] <:+: items) ∧
    (¬ (withinThreshold (timeDiff curr.date prev.date) = true ∨ sameFolder curr prev = true) →
      ∃ N1 N2, (processFeed env photos).nodes = N1 ++ N2 ∧
        (flatten N1).Perm (photos.take (i + 1)) ∧ (flatten N2).Perm (photos.drop (i + 1))) ∧
    (photos.Nodup →
      ((∃ items, Node.cluster items ∈ (processFeed env photos).nodes ∧
          prev ∈ items ∧ curr ∈ items) ↔
        (withinThreshold (timeDiff curr.date prev.date) = true ∨
          sameFolder curr prev = true))) := by
  obtain ⟨hsplit, htake, hdrop⟩ := adjacent_take_drop photos i prev curr hp hc
  have hfwd : (withinThreshold (timeDiff curr.date prev.date) = true ∨
      sameFolder curr prev = true) →
      ∃ items, Node.cluster items ∈ (processFeed env photos).nodes ∧ [prev, curr] <:+: items := by
    intro hcond
    obtain ⟨items, hmem, hinf⟩ := out_pair_joined env (photos.take i) (photos.drop (i + 2))
      prev curr hpt hct hci hpi hm (by simpa using hcond)
    exact ⟨items, by rw [processFeed_nodes, hsplit]; exact hmem, hinf⟩
  have hbwd : ¬ (withinThreshold (timeDiff curr.date prev.date) = true ∨
      sameFolder curr prev = true) →
      ∃ N1 N2, (processFeed env photos).nodes = N1 ++ N2 ∧
        (flatten N1).Perm (photos.take (i + 1)) ∧ (flatten N2).Perm (photos.drop (i + 1)) := by
    intro hcond
    have hj : (withinThreshold (timeDiff curr.date prev.date) || sameFolder curr prev)
        = false := bool_or_false_of_not _ _ hcond
    obtain ⟨N1, N2, hN, hp1, hp2⟩ := out_pair_split env (photos.take i) (photos.drop (i + 2))
      prev curr hpt hct hci hm hj
    refine ⟨N1, N2, ?_, ?_, ?_⟩
    · rw [processFeed_nodes, hsplit]
      exact hN
    · rw [htake]
      exact hp1
    · rw [hdrop]
      exact hp2
  refine ⟨hfwd, hbwd, ?_⟩
  intro hnd
  constructor
  · rintro ⟨items, hmem, hpm, hcm⟩
    by_contra hcond
    obtain ⟨N1, N2, hN, hp1, hp2⟩ := hbwd hcond
    have hdis : List.Disjoint (photos.take (i + 1)) (photos.drop (i + 1)) := by
      have := hnd
      rw [← List.take_append_drop (i + 1) photos] at this
      exact (List.nodup_append.mp this).2.2
    have hprev : prev ∈ photos.take (i + 1) := by rw [htake]; simp
    have hcurr : curr ∈ photos.drop (i + 1) := by rw [hdrop]; simp
    rw [hN] at hmem
    rcases List.mem_append.mp hmem with h | h
    · have : curr ∈ flatten N1 := (mem_flatten_iff curr N1).mpr ⟨_, h, hcm⟩
      exact hdis (hp1.mem_iff.mp this) hcurr
    · have : prev ∈ flatten N2 := (mem_flatten_iff prev N2).mpr ⟨_, h, hpm⟩
      exact hdis hprev (hp2.mem_iff.mp this)
  · intro hcond
    obtain ⟨items, hmem, hinf⟩ := hfwd hcond
    exact ⟨items, hmem, hinf.subset (by simp), hinf.subset (by simp)⟩

/-- C7, on the folder trip: the first two photos are a day apart and share the
folder. -/
theorem same_cluster_iff_witness :
    sameFolder (photoInFolder "b.jpg" (24 * hour) "Rome") (photoInFolder "a.jpg" 0 "Rome") = true ∧
    withinThreshold (timeDiff (photoInFolder "b.jpg" (24 * hour) "Rome").date
      (photoInFolder "a.jpg" 0 "Rome").date) = false ∧
    folderTrip.Nodup ∧
    ∃ items, Node.cluster items ∈ (processFeed sampleEnv folderTrip).nodes ∧
      [photoInFolder "a.jpg" 0 "Rome", photoInFolder "b.jpg" (24 * hour) "Rome"] <:+: items :=
  ⟨by decide, by decide, by decide,
    (same_cluster_iff sampleEnv folderTrip 0 _ _ (by decide) (by decide) (by decide)
      (by decide) (by decide) (by decide) (by decide)).1 (Or.inr (by decide))⟩

/-! ## Where the nodes come from -/

theorem nextBuffer_mem (env : Env) (prev : Option Item) (c : Item) (buf : List Item) (x : Item)
    (h : x ∈ nextBuffer env prev c buf) : x ∈ buf ∨ (x = c ∧ c.type ≠ ItemType.text) := by
  rcases emitted_cases env prev c buf with ⟨_, _, hb⟩ | ⟨ht, _, hb⟩ |
      ⟨ht, _, _, _, hb⟩ | ⟨ht, _, _, _, hb⟩
  · rw [hb] at h
    simp at h
  · rw [hb] at h
    simp at h
    exact Or.inr ⟨h, ht⟩
  · rw [hb] at h
    rcases List.mem_append.mp h with h1 | h1
    · exact Or.inl h1
    · simp at h1
      exact Or.inr ⟨h1, ht⟩
  · rw [hb] at h
    simp at h
    exact Or.inr ⟨h, ht⟩

/-- Every node of a run is a node of the flush of some buffer of photos, the
text node of a text item, or a map node. -/
theorem out_mem (env : Env) (n : Node) (rest : List Item) :
    ∀ (prev : Option Item) (buf : List Item), n ∈ out env prev rest buf →
      (∃ b, n ∈ flushNodes b ∧ ∀ x ∈ b, x ∈ buf ∨ (x ∈ rest ∧ x.type ≠ ItemType.text)) ∨
      (∃ c ∈ rest, c.type = ItemType.text ∧ n = Node.text c) ∨
      (∃ p c, n = Node.map p c) := by
  induction rest with
  | nil =>
    intro prev buf h
    left
    exact ⟨buf, h, fun x hx => Or.inl hx⟩
  | cons c cs ih =>
    intro prev buf h
    simp only [out] at h
    have hflush : n ∈ flushNodes buf →
        ∃ b, n ∈ flushNodes b ∧ ∀ x ∈ b, x ∈ buf ∨ (x ∈ c :: cs ∧ x.type ≠ ItemType.text) :=
      fun hn => ⟨buf, hn, fun x hx => Or.inl hx⟩
    rcases List.mem_append.mp h with h1 | h2
    · rcases emitted_cases env prev c buf with ⟨ht, he, _⟩ | ⟨_, ⟨p, _, _, he⟩, _⟩ |
          ⟨_, _, _, he, _⟩ | ⟨_, _, _, he, _⟩
      · rw [he] at h1
        rcases List.mem_append.mp h1 with h | h
        · exact Or.inl (hflush h)
        · simp at h
          exact Or.inr (Or.inl ⟨c, List.mem_cons_self c cs, ht, h⟩)
      · rw [he] at h1
        rcases List.mem_append.mp h1 with h | h
        · exact Or.inl (hflush h)
        · simp at h
          exact Or.inr (Or.inr ⟨p, c, h⟩)
      · rw [he] at h1
        simp at h1
      · rw [he] at h1
        exact Or.inl (hflush h1)
    · rcases ih (some c) _ h2 with ⟨b, hb, hall⟩ | ⟨d, hd, ht, hn⟩ | hmap
      · left
        refine ⟨b, hb, ?_⟩
        intro x hx
        rcases hall x hx with hx1 | ⟨hx1, hx2⟩
        · rcases nextBuffer_mem env prev c buf x hx1 with h3 | ⟨h3, h4⟩
          · exact Or.inl h3
          · subst h3
            exact Or.inr ⟨List.mem_cons_self x cs, h4⟩
        · exact Or.inr ⟨List.mem_cons_of_mem c hx1, hx2⟩
      · exact Or.inr (Or.inl ⟨d, List.mem_cons_of_mem c hd, ht, hn⟩)
      · exact Or.inr (Or.inr hmap)

/-- Every buffered item and every photo still to come is flushed in some
buffer whose nodes are all nodes of the run. -/
theorem out_covers (env : Env) (x : Item) (rest : List Item) :
    ∀ (prev : Option Item) (buf : List Item),
      (x ∈ buf ∨ (x ∈ rest ∧ x.type ≠ ItemType.text)) →
      ∃ b, x ∈ b ∧ ∀ n ∈ flushNodes b, n ∈ out env prev rest buf := by
  induction rest with
  | nil =>
    intro prev buf h
    rcases h with h | ⟨h, _⟩
    · exact ⟨buf, h, fun n hn => hn⟩
    · simp at h
  | cons c cs ih =>
    intro prev buf h
    simp only [out]
    have lift : (∃ b, x ∈ b ∧ ∀ n ∈ flushNodes b,
          n ∈ out env (some c) cs (nextBuffer env prev c buf)) →
        ∃ b, x ∈ b ∧ ∀ n ∈ flushNodes b,
          n ∈ emitted env prev c buf ++ out env (some c) cs (nextBuffer env prev c buf) := by
      rintro ⟨b, hb, hall⟩
      exact ⟨b, hb, fun n hn => List.mem_append_right _ (hall n hn)⟩
    rcases h with hbuf | ⟨hrest, hxt⟩
    · rcases emitted_cases env prev c buf with ⟨_, he, _⟩ | ⟨_, ⟨p, _, _, he⟩, _⟩ |
          ⟨_, _, _, _, hb⟩ | ⟨_, _, _, he, _⟩
      · exact ⟨buf, hbuf, fun n hn => List.mem_append_left _
          (by rw [he]; exact List.mem_append_left _ hn)⟩
      · exact ⟨buf, hbuf, fun n hn => List.mem_append_left _
          (by rw [he]; exact List.mem_append_left _ hn)⟩
      · apply lift
        apply ih
        left
        rw [hb]
        exact List.mem_append_left _ hbuf
      · exact ⟨buf, hbuf, fun n hn => List.mem_append_left _ (by rw [he]; exact hn)⟩
    · apply lift
      apply ih
      rcases List.mem_cons.mp hrest with hxc | hxcs
      · subst hxc
        left
        rcases emitted_cases env prev x buf with ⟨ht, _⟩ | ⟨_, _, hb⟩ |
            ⟨_, _, _, _, hb⟩ | ⟨_, _, _, _, hb⟩
        · exact absurd ht hxt
        · rw [hb]; simp
        · rw [hb]; simp
        · rw [hb]; simp
      · exact Or.inr ⟨hxcs, hxt⟩

theorem flushNodes_hero_mem (b : List Item) (x : Item) (hx : x ∈ b) (hh : isHero x = true) :
    Node.hero x ∈ flushNodes b := by
  unfold flushNodes
  apply List.mem_append_left
  exact List.mem_map.mpr ⟨x, List.mem_filter.mpr ⟨hx, hh⟩, rfl⟩

theorem flushNodes_cluster_mem (b : List Item) (x : Item) (hx : x ∈ b)
    (hi : x.layoutIntent = some LayoutIntent.cluster) :
    ∃ items, Node.cluster items ∈ flushNodes b ∧ x ∈ items := by
  have hxf : x ∈ b.filter (fun p => !isHero p) :=
    List.mem_filter.mpr ⟨hx, by simp [isHero, hi]⟩
  refine ⟨b.filter (fun p => !isHero p), ?_, hxf⟩
  unfold flushNodes
  apply List.mem_append_right
  rcases clusterNodes_cases (b.filter (fun p => !isHero p)) with ⟨_, he⟩ | ⟨c, hc, hne, _⟩ |
      ⟨he, _⟩
  · rw [he] at hxf
    simp at hxf
  · rw [hc] at hxf
    simp at hxf
    subst hxf
    exact absurd hi hne
  · rw [he]
    simp

/-! ## C8, C9 and C10: explicit intents and single items -/

/-- C8. No cluster node of `processFeed` holds an item whose `layoutIntent` is
hero, and every input photo whose `layoutIntent` is hero is the item of a hero
node. -/
theorem hero_intent_own_node (env : Env) (photos : List Item) :
    (∀ items x, Node.cluster items ∈ (processFeed env photos).nodes → x ∈ items →
      x.layoutIntent ≠ some LayoutIntent.hero) ∧
    (∀ x ∈ photos, x.type ≠ ItemType.text → x.layoutIntent = some LayoutIntent.hero →
      Node.hero x ∈ (processFeed env photos).nodes) := by
  constructor
  · intro items x hmem hx
    rw [processFeed_nodes] at hmem
    rcases out_mem env _ photos none [] hmem with ⟨b, hb, _⟩ | ⟨c, _, _, hn⟩ | ⟨p, c, hn⟩
    · rcases flushNodes_mem b _ hb with ⟨y, hy, _⟩ | ⟨hn, _⟩
      · cases hy
      · simp only [Node.cluster.injEq] at hn
        subst hn
        have := (List.mem_filter.mp hx).2
        intro hi
        simp [isHero, hi] at this
    · cases hn
    · cases hn
  · intro x hx hxt hi
    obtain ⟨b, hxb, hall⟩ := out_covers env x photos none [] (Or.inr ⟨hx, hxt⟩)
    rw [processFeed_nodes]
    exact hall _ (flushNodes_hero_mem b x hxb (by simp [isHero, hi]))

/-- C8, on the intent trip: its cluster node holds only the cluster-intent
photo and both hero-intent photos have a hero node. -/
theorem hero_intent_own_node_witness :
    Node.cluster [{ photoAt "b.jpg" 600000 with layoutIntent := some LayoutIntent.cluster }]
      ∈ (processFeed sampleEnv intentTrip).nodes ∧
    Node.hero { photoAt "a.jpg" 0 with layoutIntent := some LayoutIntent.hero }
      ∈ (processFeed sampleEnv intentTrip).nodes ∧
    Node.hero { photoAt "c.jpg" 1200000 with layoutIntent := some LayoutIntent.hero }
      ∈ (processFeed sampleEnv intentTrip).nodes :=
  ⟨by decide,
    (hero_intent_own_node sampleEnv intentTrip).2 _ (by decide) (by decide) rfl,
    (hero_intent_own_node sampleEnv intentTrip).2 _ (by decide) (by decide) rfl⟩

/-- C9. Every input photo whose `layoutIntent` is cluster lies in a cluster
node of `processFeed`, no hero node holds an item whose `layoutIntent` is
cluster, and a lone photo with cluster intent gives a one-item cluster. -/
theorem cluster_intent_in_cluster (env : Env) (photos : List Item) :
    (∀ x ∈ photos, x.type ≠ ItemType.text → x.layoutIntent = some LayoutIntent.cluster →
      ∃ items, Node.cluster items ∈ (processFeed env photos).nodes ∧ x ∈ items) ∧
    (∀ x, Node.hero x ∈ (processFeed env photos).nodes →
      x.layoutIntent ≠ some LayoutIntent.cluster) ∧
    (∀ x : Item, x.type ≠ ItemType.text → x.layoutIntent = some LayoutIntent.cluster →
      (processFeed env [x]).nodes = [Node.cluster [x]]) := by
  refine ⟨?_, ?_, ?_⟩
  · intro x hx hxt hi
    obtain ⟨b, hxb, hall⟩ := out_covers env x photos none [] (Or.inr ⟨hx, hxt⟩)
    obtain ⟨items, hmem, hxi⟩ := flushNodes_cluster_mem b x hxb hi
    rw [processFeed_nodes]
    exact ⟨items, hall _ hmem, hxi⟩
  · intro x hmem
    rw [processFeed_nodes] at hmem
    rcases out_mem env _ photos none [] hmem with ⟨b, hb, _⟩ | ⟨c, _, _, hn⟩ | ⟨p, c, hn⟩
    · rcases flushNodes_mem b _ hb with ⟨y, hy, _, hcase⟩ | ⟨hn, _⟩
      · simp only [Node.hero.injEq] at hy
        subst hy
        rcases hcase with hh | ⟨_, hne⟩
        · intro hi
          simp [isHero, hi] at hh
        · exact hne
      · cases hn
    · cases hn
    · cases hn
  · intro x hxt hi
    rw [processFeed_nodes]
    simp [out, emitted, nextBuffer, mapTriggered, joins, flushNodes, clusterNodes, isHero, hxt, hi]

/-- C9, on the intent trip and on its cluster-intent photo alone. -/
theorem cluster_intent_in_cluster_witness :
    (∃ items, Node.cluster items ∈ (processFeed sampleEnv intentTrip).nodes ∧
      { photoAt "b.jpg" 600000 with layoutIntent := some LayoutIntent.cluster } ∈ items) ∧
    (processFeed sampleEnv
        [{ photoAt "b.jpg" 600000 with layoutIntent := some LayoutIntent.cluster }]).nodes =
      [Node.cluster [{ photoAt "b.jpg" 600000 with layoutIntent := some LayoutIntent.cluster }]] :=
  ⟨(cluster_intent_in_cluster sampleEnv intentTrip).1 _ (by decide) (by decide) rfl,
    (cluster_intent_in_cluster sampleEnv intentTrip).2.2 _ (by decide) rfl⟩

/-- C10. A cluster node of `processFeed` with exactly one item holds an item
whose `layoutIntent` is cluster; and when the non-hero part of the buffer is a
single item without cluster intent, `flushBuffer` emits the hero-intent items
and then that item as a hero node. -/
theorem single_cluster_is_intended (env : Env) (photos : List Item) :
    (∀ x, Node.cluster [x] ∈ (processFeed env photos).nodes →
      x.layoutIntent = some LayoutIntent.cluster) ∧
    (∀ (rawNodes : List Node) (buffer : List Item) (x : Item),
      buffer.filter (fun photo => !(photo.layoutIntent == some LayoutIntent.hero)) = [x] →
      x.layoutIntent ≠ some LayoutIntent.cluster →
      flushBuffer rawNodes buffer =
        (rawNodes ++
          (buffer.filter (fun photo => photo.layoutIntent == some LayoutIntent.hero)).map Node.hero
          ++ [Node.hero x], [])) := by
  constructor
  · intro x hmem
    rw [processFeed_nodes] at hmem
    rcases out_mem env _ photos none [] hmem with ⟨b, hb, _⟩ | ⟨c, _, _, hn⟩ | ⟨p, c, hn⟩
    · rcases flushNodes_mem b _ hb with ⟨y, hy, _⟩ | ⟨hn, _, hall⟩
      · cases hy
      · simp only [Node.cluster.injEq] at hn
        exact hall x hn.symm
    · cases hn
    · cases hn
  · intro rawNodes buffer x hf hne
    have hf2 : buffer.filter (fun p => !isHero p) = [x] := hf
    rw [flushBuffer_eq]
    unfold flushNodes
    rw [hf2]
    have : clusterNodes [x] = [Node.hero x] := by simp [clusterNodes, hne]
    rw [this, List.append_assoc]
    rfl

/-- C10, on the sample trip: the lone photo after the hero-intent one is a
hero node, and flushing a buffer of one auto photo gives a hero node. -/
theorem single_cluster_is_intended_witness :
    Node.hero (photoIn "e.jpg" (34 * hour) miami none)
      ∈ (processFeed sampleEnv sampleTrip).nodes ∧
    (∀ x, Node.cluster [x] ∈ (processFeed sampleEnv sampleTrip).nodes →
      x.layoutIntent = some LayoutIntent.cluster) ∧
    flushBuffer [] [photoAt "a.jpg" 0] = ([] ++ [].map Node.hero ++ [Node.hero (photoAt "a.jpg" 0)], []) :=
  ⟨by decide, (single_cluster_is_intended sampleEnv sampleTrip).1,
    (single_cluster_is_intended sampleEnv sampleTrip).2 [] [photoAt "a.jpg" 0]
      (photoAt "a.jpg" 0) (by decide) (by decide)⟩

/-! ## The checkpoint pass -/

theorem tryAddCheckpoint_cases (env : Env) (cps : List Checkpoint) (item : Item) (k : Nat) :
    (item.hideCheckpoint = false ∧
      (cps.getLast? = none ∨
        ∃ l, cps.getLast? = some l ∧ orString l.rawLoc l.monthYear ≠ resolvedLabel env item) ∧
      tryAddCheckpoint env cps item k = cps ++ [mkCheckpoint env item k]) ∨
    ((item.hideCheckpoint = true ∨
        ∃ l, cps.getLast? = some l ∧ orString l.rawLoc l.monthYear = resolvedLabel env item) ∧
      tryAddCheckpoint env cps item k = cps) := by
  unfold tryAddCheckpoint
  cases hh : item.hideCheckpoint with
  | true => right; simp
  | false =>
    cases hl : cps.getLast? with
    | none => left; simp [mkCheckpoint, resolvedLabel, resolvedLoc]
    | some l =>
      by_cases he : orString l.rawLoc l.monthYear = resolvedLabel env item
      · right
        refine ⟨Or.inr ⟨l, rfl, he⟩, ?_⟩
        have he2 : orString l.rawLoc l.monthYear =
            orString (jsOr (jsOr item.manualLocation item.folder) item.locationName)
              (env.monthYear item.date) := he
        simp [he2]
      · left
        refine ⟨rfl, Or.inr ⟨l, rfl, he⟩, ?_⟩
        have he2 : ¬ orString l.rawLoc l.monthYear =
            orString (jsOr (jsOr item.manualLocation item.folder) item.locationName)
              (env.monthYear item.date) := he
        simp [he2, mkCheckpoint, resolvedLabel, resolvedLoc]

theorem checkpointLoop_append (env : Env) (xs ys : List Node) :
    ∀ (i : Nat) (cps : List Checkpoint),
      checkpointLoop env (xs ++ ys) i cps =
        checkpointLoop env ys (i + xs.length) (checkpointLoop env xs i cps) := by
  induction xs with
  | nil =>
    intro i cps
    simp [checkpointLoop]
  | cons x xs ih =>
    intro i cps
    have hidx : i + (x :: xs).length = i + 1 + xs.length := by
      simp only [List.length_cons]
      omega
    rw [hidx]
    show checkpointLoop env (x :: (xs ++ ys)) i cps = _
    simp only [checkpointLoop]
    cases contextItem x with
    | none => exact ih (i + 1) cps
    | some r => exact ih (i + 1) (tryAddCheckpoint env cps r i)

theorem cpsAt_zero (env : Env) (nodes : List Node) : cpsAt env nodes 0 = [] := by
  simp [cpsAt, checkpointLoop]

theorem cpsAt_succ (env : Env) (nodes : List Node) (k : Nat) (n : Node)
    (hk : nodes[k]? = some n) :
    cpsAt env nodes (k + 1) =
      match contextItem n with
      | some r => tryAddCheckpoint env (cpsAt env nodes k) r k
      | none => cpsAt env nodes k := by
  have hlt : k < nodes.length := by
    by_contra hge
    rw [List.getElem?_eq_none (Nat.le_of_not_lt hge)] at hk
    cases hk
  have htake : nodes.take (k + 1) = nodes.take k ++ [n] := by
    rw [List.take_succ, hk]
    rfl
  unfold cpsAt
  rw [htake, checkpointLoop_append]
  have hlen : (nodes.take k).length = k := by
    rw [List.length_take]
    omega
  rw [hlen]
  simp only [checkpointLoop, Nat.zero_add]

theorem cpsAt_succ_none (env : Env) (nodes : List Node) (k : Nat) (hk : nodes[k]? = none) :
    cpsAt env nodes (k + 1) = cpsAt env nodes k := by
  have hge : nodes.length ≤ k := by
    by_contra hlt
    rw [List.getElem?_eq_getElem (Nat.lt_of_not_le hlt)] at hk
    cases hk
  unfold cpsAt
  rw [List.take_of_length_le hge, List.take_of_length_le (by omega)]

theorem cpsAt_length (env : Env) (nodes : List Node) :
    cpsAt env nodes nodes.length = checkpointLoop env nodes 0 [] := by
  unfold cpsAt
  rw [List.take_length]

theorem processFeed_checkpoints (env : Env) (photos : List Item) :
    (processFeed env photos).checkpoints =
      cpsAt env (processFeed env photos).nodes (processFeed env photos).nodes.length := by
  rw [cpsAt_length]
  unfold processFeed
  cases photos with
  | nil => simp [checkpointLoop]
  | cons p ps => simp

theorem generated_label (env : Env) (nodes : List Node) (c : Checkpoint)
    (h : Generated env nodes c) : orString c.rawLoc c.monthYear = c.label := by
  obtain ⟨n, r, _, _, _, hc⟩ := h
  rw [hc]
  rfl

/-- What holds of the checkpoints after any number of nodes: every one comes
from the representative of an earlier node, the indices increase strictly and
neighbouring labels differ. -/
theorem cpsAt_inv (env : Env) (nodes : List Node) (k : Nat) :
    (∀ c ∈ cpsAt env nodes k, c.id < k ∧ Generated env nodes c) ∧
    List.Pairwise (fun a b : Checkpoint => a.id < b.id) (cpsAt env nodes k) ∧
    List.Chain' (fun a b : Checkpoint => a.label ≠ b.label) (cpsAt env nodes k) := by
  induction k with
  | zero =>
    rw [cpsAt_zero]
    simp
  | succ k ih =>
    obtain ⟨ha, hb, hc⟩ := ih
    have hkeep : cpsAt env nodes (k + 1) = cpsAt env nodes k →
        (∀ c ∈ cpsAt env nodes (k + 1), c.id < k + 1 ∧ Generated env nodes c) ∧
        List.Pairwise (fun a b : Checkpoint => a.id < b.id) (cpsAt env nodes (k + 1)) ∧
        List.Chain' (fun a b : Checkpoint => a.label ≠ b.label) (cpsAt env nodes (k + 1)) := by
      intro he
      rw [he]
      exact ⟨fun c hc' => ⟨Nat.lt_succ_of_lt (ha c hc').1, (ha c hc').2⟩, hb, hc⟩
    rcases Option.eq_none_or_eq_some (nodes[k]?) with hn | ⟨n, hn⟩
    · exact hkeep (cpsAt_succ_none env nodes k hn)
    · have hs := cpsAt_succ env nodes k n hn
      rcases Option.eq_none_or_eq_some (contextItem n) with hr | ⟨r, hr⟩
      · rw [hr] at hs
        exact hkeep hs
      · rw [hr] at hs
        simp only at hs
        rcases tryAddCheckpoint_cases env (cpsAt env nodes k) r k with
            ⟨hh, hlast, hadd⟩ | ⟨_, hsame⟩
        · rw [hs, hadd]
          have hgen : Generated env nodes (mkCheckpoint env r k) := ⟨n, r, hn, hr, hh, rfl⟩
          refine ⟨?_, ?_, ?_⟩
          · intro c hc'
            rcases List.mem_append.mp hc' with h | h
            · exact ⟨Nat.lt_succ_of_lt (ha c h).1, (ha c h).2⟩
            · simp at h
              subst h
              exact ⟨Nat.lt_succ_self k, hgen⟩
          · rw [List.pairwise_append]
            refine ⟨hb, by simp, ?_⟩
            intro a hmem b hb'
            simp at hb'
            subst hb'
            exact (ha a hmem).1
          · rw [List.chain'_append]
            refine ⟨hc, by simp, ?_⟩
            intro x hx y hy
            simp at hy
            subst hy
            rcases hlast with hnone | ⟨l, hl, hne⟩
            · rw [hnone] at hx
              cases hx
            · rw [hl] at hx
              simp at hx
              subst hx
              have hmem : l ∈ cpsAt env nodes k := List.mem_of_getLast?_eq_some hl
              rw [generated_label env nodes l (ha l hmem).2] at hne
              exact hne
        · rw [hsame] at hs
          exact hkeep hs

theorem mem_cpsAt_succ (env : Env) (nodes : List Node) (m : Nat) (c : Checkpoint)
    (h : c ∈ cpsAt env nodes (m + 1)) : c ∈ cpsAt env nodes m ∨ c.id = m := by
  rcases Option.eq_none_or_eq_some (nodes[m]?) with hn | ⟨n, hn⟩
  · rw [cpsAt_succ_none env nodes m hn] at h
    exact Or.inl h
  · rw [cpsAt_succ env nodes m n hn] at h
    rcases Option.eq_none_or_eq_some (contextItem n) with hr | ⟨r, hr⟩
    · rw [hr] at h
      exact Or.inl h
    · rw [hr] at h
      simp only at h
      rcases tryAddCheckpoint_cases env (cpsAt env nodes m) r m with ⟨_, _, hadd⟩ | ⟨_, hsame⟩
      · rw [hadd] at h
        rcases List.mem_append.mp h with h1 | h1
        · exact Or.inl h1
        · simp at h1
          subst h1
          exact Or.inr rfl
      · rw [hsame] at h
        exact Or.inl h

theorem cpsAt_grows_succ (env : Env) (nodes : List Node) (m : Nat) :
    cpsAt env nodes m <+: cpsAt env nodes (m + 1) := by
  rcases Option.eq_none_or_eq_some (nodes[m]?) with hn | ⟨n, hn⟩
  · rw [cpsAt_succ_none env nodes m hn]
  · rw [cpsAt_succ env nodes m n hn]
    rcases Option.eq_none_or_eq_some (contextItem n) with hr | ⟨r, hr⟩
    · rw [hr]
    · rw [hr]
      simp only
      rcases tryAddCheckpoint_cases env (cpsAt env nodes m) r m with ⟨_, _, hadd⟩ | ⟨_, hsame⟩
      · rw [hadd]
        exact List.prefix_append _ _
      · rw [hsame]

theorem cpsAt_grows (env : Env) (nodes : List Node) (k d : Nat) :
    cpsAt env nodes k <+: cpsAt env nodes (k + d) := by
  induction d with
  | zero => exact List.prefix_refl _
  | succ d ih => exact ih.trans (cpsAt_grows_succ env nodes (k + d))

theorem mem_cpsAt_of_lt (env : Env) (nodes : List Node) (k d : Nat) (c : Checkpoint) :
    c ∈ cpsAt env nodes (k + d) → c.id < k → c ∈ cpsAt env nodes k := by
  induction d with
  | zero => intro h _; exact h
  | succ d ih =>
    intro h hlt
    rcases mem_cpsAt_succ env nodes (k + d) c h with h1 | h1
    · exact ih h1 hlt
    · omega

/-- Visiting nodes without a representative leaves the checkpoints as they
are. -/
theorem cpsAt_skip (env : Env) (nodes : List Node) (k d : Nat)
    (h : ∀ (j : Nat) (n : Node), k ≤ j → j < k + d → nodes[j]? = some n → contextItem n = none) :
    cpsAt env nodes (k + d) = cpsAt env nodes k := by
  induction d with
  | zero => rfl
  | succ d ih =>
    have ih' := ih (fun j n h1 h2 h3 => h j n h1 (by omega) h3)
    rcases Option.eq_none_or_eq_some (nodes[k + d]?) with hn | ⟨n, hn⟩
    · rw [← ih']
      exact cpsAt_succ_none env nodes (k + d) hn
    · have := cpsAt_succ env nodes (k + d) n hn
      rw [h (k + d) n (by omega) (by omega) hn] at this
      rw [← ih']
      exact this

/-! ## C11: the size of a cluster node -/

/-- C11, as stated, fails: a lone photo with cluster intent is emitted as a
cluster node of one item. -/
theorem cluster_size_counterexample :
    ¬ ∀ items, Node.cluster items ∈ (processFeed sampleEnv loneCluster).nodes →
      2 ≤ items.length := by
  intro h
  have := h loneCluster (by decide)
  revert this
  decide

/-- C11, amended. Every cluster node of `processFeed` holds at least one
item, and at least two unless its only item has `layoutIntent` cluster. -/
theorem cluster_size (env : Env) (photos : List Item) (items : List Item)
    (h : Node.cluster items ∈ (processFeed env photos).nodes) :
    1 ≤ items.length ∧
    (2 ≤ items.length ∨ ∃ x, items = [x] ∧ x.layoutIntent = some LayoutIntent.cluster) := by
  rw [processFeed_nodes] at h
  rcases out_mem env _ photos none [] h with ⟨b, hb, _⟩ | ⟨c, _, _, hn⟩ | ⟨p, c, hn⟩
  · rcases flushNodes_mem b _ hb with ⟨y, hy, _⟩ | ⟨hn, hne, hall⟩
    · cases hy
    · simp only [Node.cluster.injEq] at hn
      rw [← hn] at hne hall
      cases items with
      | nil => exact absurd rfl hne
      | cons x xs =>
        refine ⟨by simp, ?_⟩
        cases xs with
        | nil => exact Or.inr ⟨x, rfl, hall x rfl⟩
        | cons y ys => left; simp
  · cases hn
  · cases hn

/-- C11 amended, on the cluster of the sample trip and on the one-item
cluster of the intent trip. -/
theorem cluster_size_witness :
    (1 ≤ (sampleTrip.take 3).length ∧
      (2 ≤ (sampleTrip.take 3).length ∨
        ∃ x, sampleTrip.take 3 = [x] ∧ x.layoutIntent = some LayoutIntent.cluster)) ∧
    (1 ≤ loneCluster.length ∧
      (2 ≤ loneCluster.length ∨
        ∃ x, loneCluster = [x] ∧ x.layoutIntent = some LayoutIntent.cluster)) :=
  ⟨cluster_size sampleEnv sampleTrip (sampleTrip.take 3) (by decide),
    cluster_size sampleEnv intentTrip loneCluster (by decide)⟩

/-! ## C13: empty and non-empty inputs -/

/-- C13. On the empty list `processFeed` returns no node and no checkpoint,
and on every non-empty list it returns at least one node. -/
theorem processFeed_empty_iff (env : Env) :
    processFeed env [] = { nodes := [], checkpoints := [] } ∧
    ∀ photos : List Item, photos ≠ [] → (processFeed env photos).nodes ≠ [] := by
  refine ⟨rfl, ?_⟩
  intro photos hne hnodes
  have hperm : (flatten (processFeed env photos).nodes).Perm photos := by
    rw [processFeed_nodes]
    simpa using out_perm env photos none []
  rw [hnodes] at hperm
  exact hne (List.Perm.nil_eq hperm).symm

/-- C13, on the sample trip. -/
theorem processFeed_empty_iff_witness :
    sampleTrip ≠ [] ∧ (processFeed sampleEnv sampleTrip).nodes ≠ [] :=
  ⟨by decide, (processFeed_empty_iff sampleEnv).2 sampleTrip (by decide)⟩

/-! ## C14 to C18: the checkpoints -/

theorem contextItem_cases (n : Node) (r : Item) (h : contextItem n = some r) :
    ((∃ x, n = Node.hero x) ∨ (∃ xs, n = Node.cluster xs)) ∧ r ∈ nodeItems n := by
  cases n with
  | hero x =>
    simp [contextItem] at h
    subst h
    exact ⟨Or.inl ⟨_, rfl⟩, by simp [nodeItems]⟩
  | cluster xs =>
    simp only [contextItem] at h
    exact ⟨Or.inr ⟨_, rfl⟩, List.mem_of_mem_head? h⟩
  | map f t => simp [contextItem] at h
  | text x => simp [contextItem] at h

theorem processFeed_generated (env : Env) (photos : List Item) :
    ∀ c ∈ (processFeed env photos).checkpoints,
      Generated env (processFeed env photos).nodes c := by
  intro c hc
  rw [processFeed_checkpoints] at hc
  exact ((cpsAt_inv env _ _).1 c hc).2

/-- C14. The node indices of the checkpoints of `processFeed` increase
strictly along the list, each is the position of a hero or cluster node, and
the checkpoint's `triggerSrc` is the `src` of that node's representative item
(the hero item, or the first item of the cluster). -/
theorem checkpoints_index (env : Env) (photos : List Item) :
    List.Pairwise (fun a b : Checkpoint => a.id < b.id) (processFeed env photos).checkpoints ∧
    ∀ c ∈ (processFeed env photos).checkpoints, ∃ n r,
      (processFeed env photos).nodes[c.id]? = some n ∧
      ((∃ x, n = Node.hero x) ∨ (∃ xs, n = Node.cluster xs)) ∧
      contextItem n = some r ∧ c.triggerSrc = r.src := by
  constructor
  · rw [processFeed_checkpoints]
    exact (cpsAt_inv env _ _).2.1
  · intro c hc
    obtain ⟨n, r, hn, hr, _, hmk⟩ := processFeed_generated env photos c hc
    refine ⟨n, r, hn, (contextItem_cases n r hr).1, hr, ?_⟩
    rw [hmk]
    rfl

/-- C14, on the sample trip: the checkpoints sit at nodes 0, 2 and 3. -/
theorem checkpoints_index_witness :
    (processFeed sampleEnv sampleTrip).checkpoints.map Checkpoint.id = [0, 2, 3] ∧
    List.Pairwise (fun a b : Checkpoint => a.id < b.id)
      (processFeed sampleEnv sampleTrip).checkpoints :=
  ⟨by decide, (checkpoints_index sampleEnv sampleTrip).1⟩

/-- A checkpoint exists for the node at index `k` exactly when its
representative does not hide it and the checkpoints so far are empty or end
with another label. -/
theorem produced_iff (env : Env) (nodes : List Node) (k : Nat) (n : Node) (r : Item)
    (hn : nodes[k]? = some n) (hr : contextItem n = some r) :
    (∃ c ∈ cpsAt env nodes nodes.length, c.id = k) ↔
      (r.hideCheckpoint = false ∧
        ((cpsAt env nodes k).getLast? = none ∨
          ∃ l, (cpsAt env nodes k).getLast? = some l ∧ l.label ≠ resolvedLabel env r)) := by
  have hlt : k < nodes.length := by
    by_contra hge
    rw [List.getElem?_eq_none (Nat.le_of_not_lt hge)] at hn
    cases hn
  have hlen : nodes.length = (k + 1) + (nodes.length - (k + 1)) := by omega
  have hs := cpsAt_succ env nodes k n hn
  rw [hr] at hs
  simp only at hs
  have hlabel : ∀ l, (cpsAt env nodes k).getLast? = some l →
      orString l.rawLoc l.monthYear = l.label := by
    intro l hl
    exact generated_label env nodes l
      ((cpsAt_inv env nodes k).1 l (List.mem_of_getLast?_eq_some hl)).2
  constructor
  · rintro ⟨c, hc, hid⟩
    rw [hlen] at hc
    have hc1 : c ∈ cpsAt env nodes (k + 1) :=
      mem_cpsAt_of_lt env nodes (k + 1) _ c hc (by omega)
    have hc0 : c ∉ cpsAt env nodes k := by
      intro hmem
      have := ((cpsAt_inv env nodes k).1 c hmem).1
      omega
    rcases tryAddCheckpoint_cases env (cpsAt env nodes k) r k with
        ⟨hh, hlast, _⟩ | ⟨_, hsame⟩
    · refine ⟨hh, ?_⟩
      rcases hlast with h | ⟨l, hl, hne⟩
      · exact Or.inl h
      · exact Or.inr ⟨l, hl, by rw [← hlabel l hl]; exact hne⟩
    · rw [hs, hsame] at hc1
      exact absurd hc1 hc0
  · rintro ⟨hh, hlast⟩
    refine ⟨mkCheckpoint env r k, ?_, rfl⟩
    rw [hlen]
    apply (cpsAt_grows env nodes (k + 1) _).subset
    rcases tryAddCheckpoint_cases env (cpsAt env nodes k) r k with
        ⟨_, _, hadd⟩ | ⟨hcase, _⟩
    · rw [hs, hadd]
      simp
    · rcases hcase with h | ⟨l, hl, heq⟩
      · rw [hh] at h
        cases h
      · rcases hlast with h | ⟨l2, hl2, hne⟩
        · rw [h] at hl
          cases hl
        · rw [hl] at hl2
          cases hl2
          rw [hlabel l hl] at heq
          exact absurd heq hne

/-- After the node of a representative that does not hide its checkpoint,
the last checkpoint bears its label. -/
theorem last_label_after (env : Env) (nodes : List Node) (k : Nat) (n : Node) (r : Item)
    (hn : nodes[k]? = some n) (hr : contextItem n = some r) (hh : r.hideCheckpoint = false) :
    ∃ l, (cpsAt env nodes (k + 1)).getLast? = some l ∧ l.label = resolvedLabel env r := by
  have hs := cpsAt_succ env nodes k n hn
  rw [hr] at hs
  simp only at hs
  rcases tryAddCheckpoint_cases env (cpsAt env nodes k) r k with
      ⟨_, _, hadd⟩ | ⟨hcase, hsame⟩
  · refine ⟨mkCheckpoint env r k, ?_, rfl⟩
    rw [hs, hadd, List.getLast?_concat]
  · rcases hcase with h | ⟨l, hl, heq⟩
    · rw [hh] at h
      cases h
    · refine ⟨l, by rw [hs, hsame]; exact hl, ?_⟩
      rw [← generated_label env nodes l
        ((cpsAt_inv env nodes k).1 l (List.mem_of_getLast?_eq_some hl)).2]
      exact heq

/-- The checkpoints when the second of two consecutive representatives is
reached are those left by the first. -/
theorem cpsAt_between (env : Env) (nodes : List Node) (k1 k2 : Nat) (hlt : k1 < k2)
    (hgap : ∀ (j : Nat) (n : Node), k1 < j → j < k2 → nodes[j]? = some n →
      contextItem n = none) :
    cpsAt env nodes k2 = cpsAt env nodes (k1 + 1) := by
  have hk : k2 = (k1 + 1) + (k2 - (k1 + 1)) := by omega
  rw [hk]
  apply cpsAt_skip
  intro j n h1 h2 h3
  exact hgap j n (by omega) (by omega) h3

/-- C15. Any two consecutive checkpoints of `processFeed` have different
labels; consequently, of two consecutive representative items (those of
successive hero or cluster nodes) that resolve to the same label, at most one
has a checkpoint. -/
theorem checkpoints_labels_differ (env : Env) (photos : List Item) :
    List.Chain' (fun a b : Checkpoint => a.label ≠ b.label)
      (processFeed env photos).checkpoints ∧
    ∀ (k1 k2 : Nat) (n1 n2 : Node) (r1 r2 : Item), k1 < k2 →
      (processFeed env photos).nodes[k1]? = some n1 → contextItem n1 = some r1 →
      (processFeed env photos).nodes[k2]? = some n2 → contextItem n2 = some r2 →
      (∀ (j : Nat) (n : Node), k1 < j → j < k2 →
        (processFeed env photos).nodes[j]? = some n → contextItem n = none) →
      resolvedLabel env r1 = resolvedLabel env r2 →
      ¬ ((∃ c ∈ (processFeed env photos).checkpoints, c.id = k1) ∧
         (∃ c ∈ (processFeed env photos).checkpoints, c.id = k2)) := by
  constructor
  · rw [processFeed_checkpoints]
    exact (cpsAt_inv env _ _).2.2
  · intro k1 k2 n1 n2 r1 r2 hlt hn1 hr1 hn2 hr2 hgap heq
    rw [processFeed_checkpoints]
    rintro ⟨h1, h2⟩
    obtain ⟨hh1, _⟩ := (produced_iff env _ k1 n1 r1 hn1 hr1).mp h1
    obtain ⟨_, hlast⟩ := (produced_iff env _ k2 n2 r2 hn2 hr2).mp h2
    obtain ⟨l, hl, hlab⟩ := last_label_after env _ k1 n1 r1 hn1 hr1 hh1
    rw [cpsAt_between env _ k1 k2 hlt hgap, hl] at hlast
    rcases hlast with h | ⟨l2, hl2, hne⟩
    · cases h
    · cases hl2
      exact hne (hlab.trans heq)

/-- C15, on the sample trip: the three labels. -/
theorem checkpoints_labels_differ_witness :
    (processFeed sampleEnv sampleTrip).checkpoints.map Checkpoint.label =
      ["Tel Aviv-Yafo", "Miami Beach", "month 0"] ∧
    List.Chain' (fun a b : Checkpoint => a.label ≠ b.label)
      (processFeed sampleEnv sampleTrip).checkpoints :=
  ⟨by decide, (checkpoints_labels_differ sampleEnv sampleTrip).1⟩

theorem orString_truthy (a : Option String) (b : String) (h : truthy a = true) :
    some (orString a b) = a := by
  cases a with
  | none => simp [truthy] at h
  | some v =>
    have hv : v ≠ "" := by simpa [truthy] using h
    simp [orString, hv]

theorem orString_falsy (a : Option String) (b : String) (h : truthy a = false) :
    orString a b = b := by
  cases a with
  | none => rfl
  | some v =>
    have hv : v = "" := by simpa [truthy] using h
    simp [orString, hv]

/-- The precedence of `loc`: the first truthy of `manualLocation`, `folder`
and `locationName`, and a falsy value when none is. -/
theorem resolvedLoc_cases (r : Item) :
    (truthy r.manualLocation = true → resolvedLoc r = r.manualLocation) ∧
    (truthy r.manualLocation = false → truthy r.folder = true → resolvedLoc r = r.folder) ∧
    (truthy r.manualLocation = false → truthy r.folder = false →
      resolvedLoc r = r.locationName) := by
  refine ⟨?_, ?_, ?_⟩
  · intro h
    simp [resolvedLoc, jsOr, h]
  · intro h1 h2
    simp [resolvedLoc, jsOr, h1, h2]
  · intro h1 h2
    simp [resolvedLoc, jsOr, h1, h2]

/-- C16. Every checkpoint of `processFeed` comes from the representative item
`r` of the node at its index: its label is `r.manualLocation` when that is set
and non-empty, otherwise `r.folder` when set, otherwise `r.locationName` when
set, otherwise the month-year string of `r.date`; its `subLabel` is the full
date string of `r.date` in the first three cases and empty in the last. -/
theorem checkpoint_label (env : Env) (photos : List Item) (c : Checkpoint)
    (hc : c ∈ (processFeed env photos).checkpoints) :
    ∃ n r, (processFeed env photos).nodes[c.id]? = some n ∧ contextItem n = some r ∧
      c.triggerSrc = r.src ∧
      (truthy r.manualLocation = true →
        some c.label = r.manualLocation ∧ c.subLabel = env.dateFull r.date) ∧
      (truthy r.manualLocation = false → truthy r.folder = true →
        some c.label = r.folder ∧ c.subLabel = env.dateFull r.date) ∧
      (truthy r.manualLocation = false → truthy r.folder = false →
        truthy r.locationName = true →
        some c.label = r.locationName ∧ c.subLabel = env.dateFull r.date) ∧
      (truthy r.manualLocation = false → truthy r.folder = false →
        truthy r.locationName = false →
        c.label = env.monthYear r.date ∧ c.subLabel = "") := by
  obtain ⟨n, r, hn, hr, _, hmk⟩ := processFeed_generated env photos c hc
  obtain ⟨h1, h2, h3⟩ := resolvedLoc_cases r
  have hl : c.label = orString (resolvedLoc r) (env.monthYear r.date) := by rw [hmk]; rfl
  have hs : c.subLabel = if truthy (resolvedLoc r) then env.dateFull r.date else "" := by
    rw [hmk]; rfl
  refine ⟨n, r, hn, hr, by rw [hmk]; rfl, ?_, ?_, ?_, ?_⟩
  · intro hm
    rw [hl, hs, h1 hm]
    exact ⟨orString_truthy _ _ hm, by simp [hm]⟩
  · intro hm hf
    rw [hl, hs, h2 hm hf]
    exact ⟨orString_truthy _ _ hf, by simp [hf]⟩
  · intro hm hf hln
    rw [hl, hs, h3 hm hf]
    exact ⟨orString_truthy _ _ hln, by simp [hln]⟩
  · intro hm hf hln
    rw [hl, hs, h3 hm hf]
    exact ⟨orString_falsy _ _ hln, by simp [hln]⟩

/-- C16, on the first checkpoint of the sample trip. -/
theorem checkpoint_label_witness :
    ∃ n r, (processFeed sampleEnv sampleTrip).nodes[0]? = some n ∧ contextItem n = some r ∧
      "a.jpg" = r.src ∧
      (truthy r.manualLocation = true →
        some "Tel Aviv-Yafo" = r.manualLocation ∧ "day 0" = sampleEnv.dateFull r.date) ∧
      (truthy r.manualLocation = false → truthy r.folder = true →
        some "Tel Aviv-Yafo" = r.folder ∧ "day 0" = sampleEnv.dateFull r.date) ∧
      (truthy r.manualLocation = false → truthy r.folder = false →
        truthy r.locationName = true →
        some "Tel Aviv-Yafo" = r.locationName ∧ "day 0" = sampleEnv.dateFull r.date) ∧
      (truthy r.manualLocation = false → truthy r.folder = false →
        truthy r.locationName = false →
        "Tel Aviv-Yafo" = sampleEnv.monthYear r.date ∧ "day 0" = "") :=
  checkpoint_label sampleEnv sampleTrip
    { id := 0, label := "Tel Aviv-Yafo", subLabel := "day 0", rawLoc := some "Tel Aviv-Yafo",
      monthYear := "month 0", triggerSrc := "a.jpg" } (by decide)

/-- C17. For an input with pairwise distinct identities, no checkpoint of
`processFeed` has as its `triggerSrc` the `src` of an input item whose
`hideCheckpoint` is true. -/
theorem checkpoint_not_hidden (env : Env) (photos : List Item)
    (hd : (photos.map Item.src).Nodup) (c : Checkpoint)
    (hc : c ∈ (processFeed env photos).checkpoints) (x : Item) (hx : x ∈ photos)
    (hsrc : x.src = c.triggerSrc) : x.hideCheckpoint = false := by
  obtain ⟨n, r, hn, hr, hh, hmk⟩ := processFeed_generated env photos c hc
  have hperm : (flatten (processFeed env photos).nodes).Perm photos := by
    rw [processFeed_nodes]
    simpa using out_perm env photos none []
  have hrmem : r ∈ photos :=
    hperm.mem_iff.mp (mem_flatten_of_index r _ c.id n hn (contextItem_cases n r hr).2)
  have hcs : c.triggerSrc = r.src := by rw [hmk]; rfl
  have : x = r := List.inj_on_of_nodup_map hd hx hrmem (hsrc.trans hcs)
  rw [this]
  exact hh

/-- C17, on the input whose second photo hides its checkpoint: the only
checkpoint is that of the first photo. -/
theorem checkpoint_not_hidden_witness :
    (hiddenSecond.map Item.src).Nodup ∧
    (processFeed sampleEnv hiddenSecond).checkpoints.map Checkpoint.triggerSrc = ["a.jpg"] ∧
    (photoNamed "a.jpg" 0 "Rome").hideCheckpoint = false :=
  ⟨by decide, by decide,
    checkpoint_not_hidden sampleEnv hiddenSecond (by decide)
      { id := 0, label := "Rome", subLabel := "day 0", rawLoc := some "Rome",
        monthYear := "month 0", triggerSrc := "a.jpg" } (by decide)
      (photoNamed "a.jpg" 0 "Rome") (by decide) rfl⟩

/-- C18, as stated, fails twice over. A second representative that hides its
checkpoint gets none although its label differs from the first one's; and a
third representative whose label differs from that of a hidden second one gets
none when the last checkpoint already bears its label. -/
theorem new_checkpoint_counterexample :
    ((processFeed sampleEnv hiddenSecond).nodes =
        [Node.hero (photoNamed "a.jpg" 0 "Rome"),
         Node.hero { photoNamed "b.jpg" (5 * hour) "Paris" with hideCheckpoint := true }] ∧
      resolvedLabel sampleEnv (photoNamed "a.jpg" 0 "Rome") ≠
        resolvedLabel sampleEnv
          { photoNamed "b.jpg" (5 * hour) "Paris" with hideCheckpoint := true } ∧
      ¬ ∃ c ∈ (processFeed sampleEnv hiddenSecond).checkpoints, c.id = 1) ∧
    ((processFeed sampleEnv hiddenFirst).nodes =
        [Node.hero (photoNamed "a.jpg" 0 "Rome"),
         Node.hero { photoNamed "b.jpg" (5 * hour) "Paris" with hideCheckpoint := true },
         Node.hero (photoNamed "c.jpg" (10 * hour) "Rome")] ∧
      resolvedLabel sampleEnv
          { photoNamed "b.jpg" (5 * hour) "Paris" with hideCheckpoint := true } ≠
        resolvedLabel sampleEnv (photoNamed "c.jpg" (10 * hour) "Rome") ∧
      ¬ ∃ c ∈ (processFeed sampleEnv hiddenFirst).checkpoints, c.id = 2) := by
  decide

/-- C18, amended. For two consecutive representative items (those of
successive hero or cluster nodes), neither of which hides its checkpoint and
whose resolved labels differ, `processFeed` produces a checkpoint for the
second: the one built from it, at its node index. -/
theorem new_checkpoint (env : Env) (photos : List Item) (k1 k2 : Nat) (n1 n2 : Node)
    (r1 r2 : Item) (hlt : k1 < k2)
    (hn1 : (processFeed env photos).nodes[k1]? = some n1) (hr1 : contextItem n1 = some r1)
    (hn2 : (processFeed env photos).nodes[k2]? = some n2) (hr2 : contextItem n2 = some r2)
    (hgap : ∀ (j : Nat) (n : Node), k1 < j → j < k2 →
      (processFeed env photos).nodes[j]? = some n → contextItem n = none)
    (hh1 : r1.hideCheckpoint = false) (hh2 : r2.hideCheckpoint = false)
    (hne : resolvedLabel env r1 ≠ resolvedLabel env r2) :
    mkCheckpoint env r2 k2 ∈ (processFeed env photos).checkpoints := by
  obtain ⟨l, hl, hlab⟩ := last_label_after env _ k1 n1 r1 hn1 hr1 hh1
  have hprod : ∃ c ∈ cpsAt env (processFeed env photos).nodes
      (processFeed env photos).nodes.length, c.id = k2 := by
    rw [produced_iff env _ k2 n2 r2 hn2 hr2]
    refine ⟨hh2, Or.inr ⟨l, ?_, ?_⟩⟩
    · rw [cpsAt_between env _ k1 k2 hlt hgap]
      exact hl
    · rw [hlab]
      exact hne
  obtain ⟨c, hc, hid⟩ := hprod
  rw [← processFeed_checkpoints] at hc
  obtain ⟨n, r, hn, hr, _, hmk⟩ := processFeed_generated env photos c hc
  rw [hid, hn2] at hn
  cases hn
  rw [hr2] at hr
  cases hr
  rw [hid] at hmk
  rw [← hmk]
  exact hc

/-- C18 amended, on two photos in different places. -/
theorem new_checkpoint_witness :
    mkCheckpoint sampleEnv (photoNamed "b.jpg" (5 * hour) "Paris") 1
      ∈ (processFeed sampleEnv twoPlaces).checkpoints :=
  new_checkpoint sampleEnv twoPlaces 0 1 (Node.hero (photoNamed "a.jpg" 0 "Rome"))
    (Node.hero (photoNamed "b.jpg" (5 * hour) "Paris")) (photoNamed "a.jpg" 0 "Rome")
    (photoNamed "b.jpg" (5 * hour) "Paris") (by decide) (by decide) (by decide) (by decide)
    (by decide) (by intro j n h1 h2; omega) (by decide) (by decide) (by decide)

/-! ## C12: an input that is one scene -/

theorem out_singleScene (env : Env) (rest : List Item) :
    ∀ (prev : Option Item) (buf : List Item), singleScene env prev rest = true →
      buf.getLast? = prev → out env prev rest buf = flushNodes (buf ++ rest) := by
  induction rest with
  | nil =>
    intro prev buf _ _
    simp [out]
  | cons c cs ih =>
    intro prev buf hs hlast
    simp only [singleScene, Bool.and_eq_true, decide_eq_true_eq, Bool.not_eq_true'] at hs
    obtain ⟨⟨⟨ht, hm⟩, hj⟩, hrest⟩ := hs
    have hjoin : joins c buf = true := by
      unfold joins
      cases hi : c.layoutIntent with
      | some li => rfl
      | none =>
        rw [hlast]
        cases prev with
        | none => rfl
        | some p =>
          rw [hi] at hj
          exact hj
    simp only [out]
    rcases emitted_cases env prev c buf with ⟨ht', _⟩ | ⟨_, ⟨p, hp, hmt, _⟩, _⟩ |
        ⟨_, _, _, he, hb⟩ | ⟨_, _, hjf, _⟩
    · exact absurd ht' ht
    · subst hp
      rw [hm] at hmt
      cases hmt
    · rw [he, hb, List.nil_append, ih (some c) (buf ++ [c]) hrest (List.getLast?_concat buf)]
      simp
    · rw [hjoin] at hjf
      cases hjf

/-- C12. For an input that is one scene (photos only, no map node triggered,
every photo without `layoutIntent` within the time window or the folder of
its predecessor), `processFeed` returns one hero node per hero-intent item in
input order, followed by nothing when there is no other item, by one hero node
when there is exactly one other item and it lacks cluster intent, and
otherwise by one cluster node holding all the other items in input order. -/
theorem single_scene_nodes (env : Env) (photos : List Item)
    (h : singleScene env none photos = true) :
    ∃ tail, (processFeed env photos).nodes =
        (photos.filter (fun p => p.layoutIntent == some LayoutIntent.hero)).map Node.hero
          ++ tail ∧
      (photos.filter (fun p => !(p.layoutIntent == some LayoutIntent.hero)) = [] →
        tail = []) ∧
      (∀ c, photos.filter (fun p => !(p.layoutIntent == some LayoutIntent.hero)) = [c] →
        c.layoutIntent ≠ some LayoutIntent.cluster → tail = [Node.hero c]) ∧
      ((2 ≤ (photos.filter (fun p => !(p.layoutIntent == some LayoutIntent.hero))).length ∨
          ∃ c, photos.filter (fun p => !(p.layoutIntent == some LayoutIntent.hero)) = [c] ∧
            c.layoutIntent = some LayoutIntent.cluster) →
        tail = [Node.cluster
          (photos.filter (fun p => !(p.layoutIntent == some LayoutIntent.hero)))]) := by
  have hout : (processFeed env photos).nodes = flushNodes photos := by
    rw [processFeed_nodes, out_singleScene env photos none [] h rfl, List.nil_append]
  refine ⟨clusterNodes (photos.filter (fun p => !isHero p)), by rw [hout]; rfl, ?_⟩
  show (photos.filter (fun p => !isHero p) = [] → _) ∧
    (∀ c, photos.filter (fun p => !isHero p) = [c] → _ → _) ∧
    ((2 ≤ (photos.filter (fun p => !isHero p)).length ∨
      ∃ c, photos.filter (fun p => !isHero p) = [c] ∧ _) → _)
  rcases clusterNodes_cases (photos.filter (fun p => !isHero p)) with ⟨he, hnil⟩ |
      ⟨c, hc, hne, he⟩ | ⟨he, hne, hall⟩
  · refine ⟨fun _ => he, ?_, ?_⟩
    · intro c hc
      rw [hnil] at hc
      cases hc
    · rintro (h2 | ⟨c, hc, _⟩)
      · rw [hnil] at h2
        simp at h2
      · rw [hnil] at hc
        cases hc
  · refine ⟨?_, ?_, ?_⟩
    · intro hnil
      rw [hnil] at hc
      cases hc
    · intro d hd _
      rw [hc] at hd
      cases hd
      exact he
    · rintro (h2 | ⟨d, hd, hi⟩)
      · rw [hc] at h2
        simp at h2
      · rw [hc] at hd
        cases hd
        exact absurd hi hne
  · refine ⟨fun hnil => absurd hnil hne, ?_, fun _ => he⟩
    intro d hd hi
    exact absurd (hall d hd) hi

/-- C12, on the intent trip: two hero nodes, then the one-item cluster. -/
theorem single_scene_nodes_witness :
    singleScene sampleEnv none intentTrip = true ∧
    (processFeed sampleEnv intentTrip).nodes =
      [ Node.hero { photoAt "a.jpg" 0 with layoutIntent := some LayoutIntent.hero },
        Node.hero { photoAt "c.jpg" 1200000 with layoutIntent := some LayoutIntent.hero },
        Node.cluster loneCluster ] ∧
    ∃ tail, (processFeed sampleEnv intentTrip).nodes =
        (intentTrip.filter (fun p => p.layoutIntent == some LayoutIntent.hero)).map Node.hero
          ++ tail ∧
      (intentTrip.filter (fun p => !(p.layoutIntent == some LayoutIntent.hero)) = [] →
        tail = []) ∧
      (∀ c, intentTrip.filter (fun p => !(p.layoutIntent == some LayoutIntent.hero)) = [c] →
        c.layoutIntent ≠ some LayoutIntent.cluster → tail = [Node.hero c]) ∧
      ((2 ≤ (intentTrip.filter
            (fun p => !(p.layoutIntent == some LayoutIntent.hero))).length ∨
          ∃ c, intentTrip.filter (fun p => !(p.layoutIntent == some LayoutIntent.hero)) = [c] ∧
            c.layoutIntent = some LayoutIntent.cluster) →
        tail = [Node.cluster
          (intentTrip.filter (fun p => !(p.layoutIntent == some LayoutIntent.hero)))]) :=
  ⟨by decide, by decide, single_scene_nodes sampleEnv intentTrip (by decide)⟩

/-! ## C19: three photos of one morning -/

theorem sameDayThree_singleScene (env : Env) (a b c : String) (day : Int) (g : Gps)
    (name : String) (nameB nameC : Option String) (hdist : env.getDistance g g = 0) :
    singleScene env none (sameDayThree a b c day g name nameB nameC) = true := by
  have h1 : (day + 10 * hour - (day + 9 * hour)).natAbs = 3600000 := by
    have : day + 10 * hour - (day + 9 * hour) = 3600000 := by simp only [hour]; ring
    rw [this]; rfl
  have h2 : (day + 11 * hour + 1800000 - (day + 10 * hour)).natAbs = 5400000 := by
    have : day + 11 * hour + 1800000 - (day + 10 * hour) = 5400000 := by
      simp only [hour]; ring
    rw [this]; rfl
  simp [sameDayThree, singleScene, photoIn, mapTriggered, hdist, TRAVEL_DIST_THRESHOLD,
    withinThreshold, timeDiff, h1, h2, CLUSTER_TIME_THRESHOLD]
  left
  norm_num [hour]

/-- C19. For three photos with no `layoutIntent`, no folder, no
`manualLocation` and `hideCheckpoint` false, taken at 09:00, 10:00 and 11:30
of one day at the same coordinate (distance 0), the first with a non-empty
place name, `processFeed` returns the single node `cluster [A, B, C]` and
exactly one checkpoint: index 0, the place name as label, the full date of the
first photo as `subLabel` and its `src` as `triggerSrc`. -/
theorem same_day_three (env : Env) (a b c : String) (day : Int) (g : Gps)
    (name : String) (nameB nameC : Option String) (hdist : env.getDistance g g = 0)
    (hname : name ≠ "") :
    (processFeed env (sameDayThree a b c day g name nameB nameC)).nodes =
      [Node.cluster (sameDayThree a b c day g name nameB nameC)] ∧
    ∃ cp, (processFeed env (sameDayThree a b c day g name nameB nameC)).checkpoints = [cp] ∧
      cp.id = 0 ∧ cp.label = name ∧ cp.subLabel = env.dateFull (some (day + 9 * hour)) ∧
      cp.triggerSrc = a := by
  have hnodes : (processFeed env (sameDayThree a b c day g name nameB nameC)).nodes =
      [Node.cluster (sameDayThree a b c day g name nameB nameC)] := by
    rw [processFeed_nodes, out_singleScene env _ none []
      (sameDayThree_singleScene env a b c day g name nameB nameC hdist) rfl]
    simp [sameDayThree, flushNodes, clusterNodes, isHero, photoIn]
  refine ⟨hnodes, ?_⟩
  rw [processFeed_checkpoints, cpsAt_length, hnodes]
  refine ⟨mkCheckpoint env (photoIn a (day + 9 * hour) g (some name)) 0, ?_, rfl, ?_, ?_, rfl⟩
  · simp [checkpointLoop, contextItem, sameDayThree, tryAddCheckpoint, mkCheckpoint,
      resolvedLabel, resolvedLoc, photoIn]
  · simp [mkCheckpoint, resolvedLabel, resolvedLoc, photoIn, jsOr, truthy, orString, hname]
  · simp [mkCheckpoint, resolvedLoc, photoIn, jsOr, truthy, hname]

/-- C19, with the place and the file names of `mock_data.js`. -/
theorem same_day_three_witness :
    (processFeed sampleEnv
        (sameDayThree "a.jpg" "b.jpg" "c.jpg" 0 telAviv "Tel Aviv-Yafo" none none)).nodes =
      [Node.cluster (sameDayThree "a.jpg" "b.jpg" "c.jpg" 0 telAviv "Tel Aviv-Yafo" none none)] ∧
    ∃ cp, (processFeed sampleEnv
        (sameDayThree "a.jpg" "b.jpg" "c.jpg" 0 telAviv "Tel Aviv-Yafo" none none)).checkpoints
        = [cp] ∧
      cp.id = 0 ∧ cp.label = "Tel Aviv-Yafo" ∧
      cp.subLabel = sampleEnv.dateFull (some (0 + 9 * hour)) ∧ cp.triggerSrc = "a.jpg" :=
  same_day_three sampleEnv "a.jpg" "b.jpg" "c.jpg" 0 telAviv "Tel Aviv-Yafo" none none
    (by decide) (by decide)

/-! ## C20: a photo isolated from its neighbours -/

/-- A run that starts with a lone auto photo in the buffer, when the next
item is no explicit-intent photo and fails the auto test against it: the
photo becomes a hero node of its own. -/
theorem out_lone_start (env : Env) (E : Item) (post : List Item)
    (hi : E.layoutIntent = none)
    (hnext : ∀ q, post.head? = some q → q.layoutIntent = none ∧
      withinThreshold (timeDiff q.date E.date) = false ∧ sameFolder q E = false) :
    ∃ N2, out env (some E) post [E] = Node.hero E :: N2 ∧ (flatten N2).Perm post := by
  have hfl : flushNodes [E] = [Node.hero E] := by
    simp [flushNodes, clusterNodes, isHero, hi]
  cases post with
  | nil => exact ⟨[], by simp [out, hfl], by simp [flatten]⟩
  | cons q qs =>
    obtain ⟨hqi, hw, hf⟩ := hnext q rfl
    have hjoin : joins q [E] = false := by
      have := joins_concat q E [] hqi
      rw [List.nil_append] at this
      rw [this, hw, hf]
      rfl
    simp only [out]
    rcases emitted_cases env (some E) q [E] with ⟨_, he, hb⟩ | ⟨_, ⟨p, _, _, he⟩, hb⟩ |
        ⟨_, _, hj, _⟩ | ⟨_, _, _, he, hb⟩
    · refine ⟨Node.text q :: out env (some q) qs [], by rw [he, hb, hfl]; rfl, ?_⟩
      simpa [flatten, nodeItems] using out_perm env qs (some q) []
    · refine ⟨Node.map p q :: out env (some q) qs [q], by rw [he, hb, hfl]; rfl, ?_⟩
      simpa [flatten, nodeItems] using out_perm env qs (some q) [q]
    · rw [hjoin] at hj
      cases hj
    · refine ⟨out env (some q) qs [q], by rw [he, hb, hfl]; rfl, ?_⟩
      simpa using out_perm env qs (some q) [q]

/-- The iteration of an auto photo that fails the auto test against its
predecessor leaves it alone in the buffer. -/
theorem emitted_lone (env : Env) (p E : Item) (b1 : List Item)
    (ht : E.type ≠ ItemType.text) (hi : E.layoutIntent = none)
    (hb1 : b1 = [] ∨ ∃ b, b1 = b ++ [p])
    (hw : withinThreshold (timeDiff E.date p.date) = false) (hf : sameFolder E p = false) :
    nextBuffer env (some p) E b1 = [E] ∧ (flatten (emitted env (some p) E b1)).Perm b1 := by
  rcases emitted_cases env (some p) E b1 with ⟨ht', _⟩ | ⟨_, ⟨q, _, _, he⟩, hb⟩ |
      ⟨_, _, hj, he, hb⟩ | ⟨_, _, _, he, hb⟩
  · exact absurd ht' ht
  · refine ⟨hb, ?_⟩
    rw [he, flatten_append]
    simpa [flatten, nodeItems] using flushNodes_perm b1
  · rcases hb1 with h | ⟨b, h⟩
    · subst h
      exact ⟨by rw [hb]; rfl, by rw [he]; simp [flatten]⟩
    · subst h
      rw [joins_concat E p b hi, hw, hf] at hj
      cases hj
  · exact ⟨hb, by rw [he]; exact flushNodes_perm b1⟩

/-- An isolated auto photo at position `i`: the nodes split around its hero
node into those of the items before it and those of the items after it. -/
theorem out_isolated (env : Env) (photos : List Item) (i : Nat) (E : Item)
    (hE : photos[i]? = some E) (ht : E.type ≠ ItemType.text) (hi : E.layoutIntent = none)
    (hprev : ∀ (j : Nat) (p : Item), j + 1 = i → photos[j]? = some p →
      withinThreshold (timeDiff E.date p.date) = false ∧ sameFolder E p = false)
    (hnext : ∀ q, photos[i + 1]? = some q → q.layoutIntent = none ∧
      withinThreshold (timeDiff q.date E.date) = false ∧ sameFolder q E = false) :
    ∃ N1 N2, out env none photos [] = N1 ++ Node.hero E :: N2 ∧
      (flatten N1).Perm (photos.take i) ∧ (flatten N2).Perm (photos.drop (i + 1)) := by
  have hnext' : ∀ q, (photos.drop (i + 1)).head? = some q → q.layoutIntent = none ∧
      withinThreshold (timeDiff q.date E.date) = false ∧ sameFolder q E = false := by
    intro q hq
    apply hnext q
    rw [List.head?_eq_getElem?, List.getElem?_drop] at hq
    exact hq
  obtain ⟨N2, hN2, hp2⟩ := out_lone_start env E (photos.drop (i + 1)) hi hnext'
  have hlt : i < photos.length := by
    by_contra hge
    rw [List.getElem?_eq_none (Nat.le_of_not_lt hge)] at hE
    cases hE
  have hdrop : photos.drop i = E :: photos.drop (i + 1) := by
    rw [List.drop_eq_getElem_cons hlt]
    congr 1
    rw [List.getElem?_eq_getElem hlt] at hE
    exact Option.some.inj hE
  cases i with
  | zero =>
    have hph : photos = E :: photos.drop 1 := by simpa using hdrop
    refine ⟨[], N2, ?_, by simp [flatten], hp2⟩
    rw [hph]
    simp only [out, List.nil_append]
    have hem : emitted env none E [] = [] ∧ nextBuffer env none E [] = [E] := by
      simp [emitted, nextBuffer, ht, mapTriggered, joins, hi]
    rw [hem.1, hem.2, List.nil_append]
    simpa using hN2
  | succ j =>
    have hjlt : j < photos.length := by omega
    obtain ⟨hw, hf⟩ := hprev j (photos[j]) rfl (List.getElem?_eq_getElem hjlt)
    obtain ⟨hsplit, htake, hdrop1⟩ := adjacent_take_drop photos j (photos[j]) E
      (List.getElem?_eq_getElem hjlt) hE
    obtain ⟨N0, b1, hout, hcase, hperm⟩ :=
      out_reach env (photos[j]) (E :: photos.drop (j + 2)) (photos.take j) none []
    have hb1 : b1 = [] ∨ ∃ b, b1 = b ++ [photos[j]] := by
      rcases hcase with ⟨_, h, _⟩ | ⟨_, h⟩
      · exact Or.inl h
      · exact Or.inr h
    obtain ⟨hnb, hpe⟩ := emitted_lone env (photos[j]) E b1 ht hi hb1 hw hf
    refine ⟨N0 ++ emitted env (some photos[j]) E b1, N2, ?_, ?_, hp2⟩
    · have hN2' : out env (some E) (photos.drop (j + 2)) [E] = Node.hero E :: N2 := by
        have : photos.drop (j + 1 + 1) = photos.drop (j + 2) := rfl
        rw [← this]
        exact hN2
      conv_lhs => rw [hsplit]
      rw [hout]
      simp only [out, hnb, hN2', List.append_assoc]
    · rw [flatten_append, htake]
      refine (hpe.append_left (flatten N0)).trans ?_
      simpa using hperm

/-- C20, as stated, fails: an auto photo whose only neighbour comes five
hours later with cluster intent is buffered with it, so it sits in a cluster
node and has no hero node. -/
theorem isolated_photo_counterexample :
    timeDiff (photoAt "e.jpg" 0).date
      ({ photoAt "f.jpg" (5 * hour) with layoutIntent := some LayoutIntent.cluster } : Item).date
      = some 18000000 ∧
    CLUSTER_TIME_THRESHOLD ≤ 18000000 ∧
    Node.hero (photoAt "e.jpg" 0) ∉ (processFeed sampleEnv clusterAfterAuto).nodes ∧
    Node.cluster clusterAfterAuto ∈ (processFeed sampleEnv clusterAfterAuto).nodes ∧
    photoAt "e.jpg" 0 ∈ clusterAfterAuto := by
  decide

/-- C20, amended. For a photo `E` with no `layoutIntent` that is not less
than three hours from each input neighbour, shares no folder with them, and
whose following neighbour, if any, has no `layoutIntent`: `processFeed` emits
`E` as a hero node standing between the nodes of the items before it and the
nodes of the items after it; so, the input items being pairwise distinct, no
cluster node holds `E`. -/
theorem isolated_photo_hero (env : Env) (photos : List Item) (i : Nat) (E : Item)
    (hE : photos[i]? = some E) (ht : E.type ≠ ItemType.text) (hi : E.layoutIntent = none)
    (hprev : ∀ (j : Nat) (p : Item), j + 1 = i → photos[j]? = some p →
      withinThreshold (timeDiff E.date p.date) = false ∧ sameFolder E p = false)
    (hnext : ∀ q, photos[i + 1]? = some q → q.layoutIntent = none ∧
      withinThreshold (timeDiff q.date E.date) = false ∧ sameFolder q E = false) :
    (∃ N1 N2, (processFeed env photos).nodes = N1 ++ Node.hero E :: N2 ∧
      (flatten N1).Perm (photos.take i) ∧ (flatten N2).Perm (photos.drop (i + 1))) ∧
    Node.hero E ∈ (processFeed env photos).nodes ∧
    (photos.Nodup → ∀ items, Node.cluster items ∈ (processFeed env photos).nodes →
      E ∉ items) := by
  obtain ⟨N1, N2, hN, hp1, hp2⟩ := out_isolated env photos i E hE ht hi hprev hnext
  rw [← processFeed_nodes] at hN
  refine ⟨⟨N1, N2, hN, hp1, hp2⟩, by rw [hN]; simp, ?_⟩
  intro hnd items hmem hEi
  have hlt : i < photos.length := by
    by_contra hge
    rw [List.getElem?_eq_none (Nat.le_of_not_lt hge)] at hE
    cases hE
  have hEdrop : E ∈ photos.drop i := by
    rw [List.drop_eq_getElem_cons hlt]
    rw [List.getElem?_eq_getElem hlt] at hE
    rw [Option.some.inj hE]
    simp
  have hEtake : E ∈ photos.take (i + 1) := by
    rw [List.take_succ, hE]
    simp
  have hdis1 : List.Disjoint (photos.take i) (photos.drop i) := by
    have := hnd
    rw [← List.take_append_drop i photos] at this
    exact (List.nodup_append.mp this).2.2
  have hdis2 : List.Disjoint (photos.take (i + 1)) (photos.drop (i + 1)) := by
    have := hnd
    rw [← List.take_append_drop (i + 1) photos] at this
    exact (List.nodup_append.mp this).2.2
  rw [hN] at hmem
  rcases List.mem_append.mp hmem with h | h
  · have : E ∈ flatten N1 := (mem_flatten_iff E N1).mpr ⟨_, h, hEi⟩
    exact hdis1 (hp1.mem_iff.mp this) hEdrop
  · rcases List.mem_cons.mp h with h1 | h1
    · cases h1
    · have : E ∈ flatten N2 := (mem_flatten_iff E N2).mpr ⟨_, h1, hEi⟩
      exact hdis2 hEtake (hp2.mem_iff.mp this)

/-- C20 amended, on the middle one of three photos five hours apart. -/
theorem isolated_photo_hero_witness :
    farApart.Nodup ∧
    Node.hero (photoAt "e.jpg" (5 * hour)) ∈ (processFeed sampleEnv farApart).nodes ∧
    ∀ items, Node.cluster items ∈ (processFeed sampleEnv farApart).nodes →
      photoAt "e.jpg" (5 * hour) ∉ items :=
  ⟨by decide,
    (isolated_photo_hero sampleEnv farApart 1 (photoAt "e.jpg" (5 * hour)) (by decide)
      (by decide) (by decide)
      (by
        intro j p hj hp
        have hj0 : j = 0 := by omega
        subst hj0
        have : p = photoAt "d.jpg" 0 := by
          have h0 : farApart[0]? = some (photoAt "d.jpg" 0) := by decide
          rw [h0] at hp
          exact (Option.some.inj hp).symm
        subst this
        decide)
      (by
        intro q hq
        have : q = photoAt "f.jpg" (10 * hour) := by
          have h2 : farApart[1 + 1]? = some (photoAt "f.jpg" (10 * hour)) := by decide
          rw [h2] at hq
          exact (Option.some.inj hq).symm
        subst this
        decide)).2.1,
    (isolated_photo_hero sampleEnv farApart 1 (photoAt "e.jpg" (5 * hour)) (by decide)
      (by decide) (by decide)
      (by
        intro j p hj hp
        have hj0 : j = 0 := by omega
        subst hj0
        have : p = photoAt "d.jpg" 0 := by
          have h0 : farApart[0]? = some (photoAt "d.jpg" 0) := by decide
          rw [h0] at hp
          exact (Option.some.inj hp).symm
        subst this
        decide)
      (by
        intro q hq
        have : q = photoAt "f.jpg" (10 * hour) := by
          have h2 : farApart[1 + 1]? = some (photoAt "f.jpg" (10 * hour)) := by decide
          rw [h2] at hq
          exact (Option.some.inj hq).symm
        subst this
        decide)).2.2 (by decide)⟩

/-! ## C30: the order of the items that are not hero-intent -/

/-- C30. The items read back from the nodes of `processFeed`, restricted to
those whose `layoutIntent` is not hero, are the input restricted to the same
items, in the same order; in particular, when no input item has `layoutIntent`
hero, the items read back are the input list itself. -/
theorem non_hero_order (env : Env) (photos : List Item) :
    (flatten (processFeed env photos).nodes).filter
        (fun p => !(p.layoutIntent == some LayoutIntent.hero)) =
      photos.filter (fun p => !(p.layoutIntent == some LayoutIntent.hero)) ∧
    ((∀ x ∈ photos, x.layoutIntent ≠ some LayoutIntent.hero) →
      flatten (processFeed env photos).nodes = photos) := by
  have hperm : (flatten (processFeed env photos).nodes).Perm photos := by
    rw [processFeed_nodes]
    simpa using out_perm env photos none []
  have hf : (flatten (processFeed env photos).nodes).filter (fun p => !isHero p) =
      photos.filter (fun p => !isHero p) := by
    have := out_filter env (fun p => !isHero p)
      (by intro x y hx _ hqx; simp [hx] at hqx) photos none []
    rw [← processFeed_nodes, List.nil_append] at this
    exact this
  refine ⟨hf, ?_⟩
  intro hh
  have hall : ∀ l : List Item, (∀ x ∈ l, x.layoutIntent ≠ some LayoutIntent.hero) →
      l.filter (fun p => !isHero p) = l := by
    intro l hl
    rw [List.filter_eq_self]
    intro x hx
    simp [isHero, hl x hx]
  rw [hall photos hh, hall _ (fun x hx => hh x (hperm.mem_iff.mp hx))] at hf
  exact hf

/-- C30, on the input whose hero-intent photo is moved forward: the other
item keeps its place among the non-hero items. -/
theorem non_hero_order_witness :
    flatten (processFeed sampleEnv heroAfterAuto).nodes ≠ heroAfterAuto ∧
    (flatten (processFeed sampleEnv heroAfterAuto).nodes).filter
        (fun p => !(p.layoutIntent == some LayoutIntent.hero)) =
      heroAfterAuto.filter (fun p => !(p.layoutIntent == some LayoutIntent.hero)) :=
  ⟨by decide, (non_hero_order sampleEnv heroAfterAuto).1⟩

/-! ## C23 and C29: how many nodes -/

theorem nonMap_le_flatten (ns : List Node)
    (h : ∀ n ∈ ns, isMap n = false → nodeItems n ≠ []) :
    (ns.filter (fun n => !isMap n)).length ≤ (flatten ns).length := by
  induction ns with
  | nil => simp [flatten]
  | cons a as ih =>
    have ih' := ih (fun n hn => h n (List.mem_cons_of_mem a hn))
    simp only [flatten, List.length_append, List.filter_cons]
    cases hm : isMap a with
    | true =>
      simp only [Bool.not_true, Bool.false_eq_true, if_false]
      omega
    | false =>
      simp only [Bool.not_false, if_true, List.length_cons]
      have hne := h a (List.mem_cons_self a as) hm
      have : 1 ≤ (nodeItems a).length := by
        cases hni : nodeItems a with
        | nil => exact absurd hni hne
        | cons x xs => simp
      omega

theorem out_nodeItems_ne (env : Env) (photos : List Item) (n : Node)
    (hn : n ∈ out env none photos []) (hm : isMap n = false) : nodeItems n ≠ [] := by
  rcases out_mem env n photos none [] hn with ⟨b, hb, _⟩ | ⟨c, _, _, he⟩ | ⟨p, c, he⟩
  · rcases flushNodes_mem b n hb with ⟨x, hx, _⟩ | ⟨hc, hne, _⟩
    · subst hx
      simp [nodeItems]
    · subst hc
      exact hne
  · subst he
    simp [nodeItems]
  · subst he
    simp [isMap] at hm

theorem filter_isMap_flushNodes (b : List Item) : (flushNodes b).filter isMap = [] := by
  rw [List.filter_eq_nil_iff]
  intro n hn
  rw [flushNodes_not_map b n hn]
  simp

/-- One iteration appends at most one map node, and none when there is no
previous item. -/
theorem emitted_map_count (env : Env) (prev : Option Item) (c : Item) (buf : List Item) :
    ((emitted env prev c buf).filter isMap).length ≤ 1 ∧
    (prev = none → ((emitted env prev c buf).filter isMap).length = 0) := by
  rcases emitted_cases env prev c buf with ⟨_, he, _⟩ | ⟨_, ⟨p, hp, _, he⟩, _⟩ |
      ⟨_, _, _, he, _⟩ | ⟨_, _, _, he, _⟩
  · rw [he, List.filter_append, filter_isMap_flushNodes]
    simp [isMap]
  · rw [he, List.filter_append, filter_isMap_flushNodes]
    refine ⟨by simp [isMap], ?_⟩
    intro hnone
    rw [hnone] at hp
    cases hp
  · rw [he]
    simp
  · rw [he, filter_isMap_flushNodes]
    simp

theorem out_map_count (env : Env) (rest : List Item) :
    ∀ (prev : Option Item) (buf : List Item),
      ((out env prev rest buf).filter isMap).length ≤ rest.length ∧
      (prev = none → ((out env prev rest buf).filter isMap).length ≤ rest.length - 1) := by
  induction rest with
  | nil =>
    intro prev buf
    simp only [out, filter_isMap_flushNodes]
    simp
  | cons c cs ih =>
    intro prev buf
    simp only [out, List.filter_append, List.length_append, List.length_cons]
    have h1 := emitted_map_count env prev c buf
    have h2 := (ih (some c) (nextBuffer env prev c buf)).1
    refine ⟨by omega, ?_⟩
    intro hnone
    have := h1.2 hnone
    omega

/-- C23, as stated, fails: two photos with a travel gap between them give
three nodes. -/
theorem node_count_counterexample :
    ¬ (processFeed sampleEnv travelPair).nodes.length ≤ travelPair.length := by
  decide

/-- C23, amended. The number of hero, cluster and text nodes of `processFeed`
is at most the number of input items; so the number of nodes is at most the
number of input items whenever no map node is returned. -/
theorem node_count (env : Env) (photos : List Item) :
    ((processFeed env photos).nodes.filter (fun n => !isMap n)).length ≤ photos.length ∧
    ((∀ n ∈ (processFeed env photos).nodes, isMap n = false) →
      (processFeed env photos).nodes.length ≤ photos.length) := by
  have hperm : (flatten (processFeed env photos).nodes).Perm photos := by
    rw [processFeed_nodes]
    simpa using out_perm env photos none []
  have hle : ((processFeed env photos).nodes.filter (fun n => !isMap n)).length
      ≤ photos.length := by
    rw [← hperm.length_eq]
    apply nonMap_le_flatten
    intro n hn hm
    rw [processFeed_nodes] at hn
    exact out_nodeItems_ne env photos n hn hm
  refine ⟨hle, ?_⟩
  intro hall
  have : (processFeed env photos).nodes.filter (fun n => !isMap n) =
      (processFeed env photos).nodes := by
    rw [List.filter_eq_self]
    intro n hn
    simp [hall n hn]
  rw [this] at hle
  exact hle

/-- C23 amended, on the sample trip, which has no map node. -/
theorem node_count_witness :
    (∀ n ∈ (processFeed sampleEnv sampleTrip).nodes, isMap n = false) ∧
    (processFeed sampleEnv sampleTrip).nodes.length ≤ sampleTrip.length :=
  ⟨by decide, (node_count sampleEnv sampleTrip).2 (by decide)⟩

/-- C29. For a non-empty input of `n` items `processFeed` returns at most
`2n - 1` nodes: at most `n` hero, cluster and text nodes and at most `n - 1`
map nodes. -/
theorem node_count_bound (env : Env) (photos : List Item) (hne : photos ≠ []) :
    (processFeed env photos).nodes.length ≤ 2 * photos.length - 1 ∧
    ((processFeed env photos).nodes.filter (fun n => !isMap n)).length ≤ photos.length ∧
    ((processFeed env photos).nodes.filter isMap).length ≤ photos.length - 1 := by
  have hperm : (flatten (processFeed env photos).nodes).Perm photos := by
    rw [processFeed_nodes]
    simpa using out_perm env photos none []
  have h1 : ((processFeed env photos).nodes.filter (fun n => !isMap n)).length
      ≤ photos.length := by
    rw [← hperm.length_eq]
    apply nonMap_le_flatten
    intro n hn hm
    rw [processFeed_nodes] at hn
    exact out_nodeItems_ne env photos n hn hm
  have h2 : ((processFeed env photos).nodes.filter isMap).length ≤ photos.length - 1 := by
    rw [processFeed_nodes]
    exact (out_map_count env photos none []).2 rfl
  have h3 := List.length_eq_length_filter_add (l := (processFeed env photos).nodes) isMap
  have hpos : 1 ≤ photos.length := by
    cases photos with
    | nil => exact absurd rfl hne
    | cons x xs => simp
  refine ⟨?_, h1, h2⟩
  have h1' : ((processFeed env photos).nodes.filter (fun n => !isMap n)).length =
      ((processFeed env photos).nodes.filter (!isMap ·)).length := rfl
  omega

/-- C29, on the travel pair: three nodes for two items. -/
theorem node_count_bound_witness :
    (processFeed sampleEnv travelPair).nodes.length = 3 ∧
    ((processFeed sampleEnv travelPair).nodes.length ≤ 2 * travelPair.length - 1 ∧
    ((processFeed sampleEnv travelPair).nodes.filter (fun n => !isMap n)).length
      ≤ travelPair.length ∧
    ((processFeed sampleEnv travelPair).nodes.filter isMap).length ≤ travelPair.length - 1) :=
  ⟨by decide, node_count_bound sampleEnv travelPair (by decide)⟩

/-! ## C24: the two items of a map node -/

/-- C24, as stated, fails for the `from` item: a text item that carries a
`gps` and stands right before a distant photo is the `from` of a map node. -/
theorem map_items_counterexample :
    Node.map { textBlock "text_1" with gps := some telAviv }
        (photoIn "d.jpg" (33 * hour) miami (some "Miami Beach"))
      ∈ (processFeed sampleEnv textWithGps).nodes ∧
    ({ textBlock "text_1" with gps := some telAviv } : Item).type = ItemType.text := by
  decide

/-- C24, amended. The `to` item of every map node of `processFeed` is a photo,
and its `from` item is the input item immediately before it (`from` at some
position `i`, `to` at position `i + 1`), with a `gps`; so the `from` item is a
photo as well whenever no text item of the input has a `gps`. -/
theorem map_items (env : Env) (photos : List Item) (f t : Item)
    (h : Node.map f t ∈ (processFeed env photos).nodes) :
    t.type ≠ ItemType.text ∧
    (∃ i : Nat, photos[i]? = some f ∧ photos[i + 1]? = some t) ∧
    f ∈ photos ∧ f.gps ≠ none ∧
    ((∀ x ∈ photos, x.type = ItemType.text → x.gps = none) → f.type ≠ ItemType.text) := by
  rw [processFeed_nodes] at h
  obtain ⟨hmt, ht, pre, post, hs⟩ := out_map_mem env f t photos none [] h
  simp only [Option.toList, List.nil_append] at hs
  obtain ⟨g1, g2, h1, _, _, _⟩ := (mapTriggered_iff env f t).mp hmt
  have hf : f ∈ photos := by rw [hs]; simp
  have hadj : ∃ i : Nat, photos[i]? = some f ∧ photos[i + 1]? = some t := by
    refine ⟨pre.length, ?_⟩
    rw [hs]
    exact split_adjacent pre post f t
  refine ⟨ht, hadj, hf, by rw [h1]; simp, ?_⟩
  intro hall hft
  have := hall f hf hft
  rw [h1] at this
  cases this

/-- C24 amended, on the map node of the travel pair: its items are the input
items at positions 0 and 1. -/
theorem map_items_witness :
    travelPair[0]? = some (photoIn "c.jpg" (11 * hour + 1800000) telAviv none) ∧
    travelPair[0 + 1]? = some (photoIn "d.jpg" (33 * hour) miami (some "Miami Beach")) ∧
    ((photoIn "d.jpg" (33 * hour) miami (some "Miami Beach")).type ≠ ItemType.text ∧
    (∃ i : Nat, travelPair[i]? = some (photoIn "c.jpg" (11 * hour + 1800000) telAviv none) ∧
      travelPair[i + 1]? = some (photoIn "d.jpg" (33 * hour) miami (some "Miami Beach"))) ∧
    photoIn "c.jpg" (11 * hour + 1800000) telAviv none ∈ travelPair ∧
    (photoIn "c.jpg" (11 * hour + 1800000) telAviv none).gps ≠ none ∧
    ((∀ x ∈ travelPair, x.type = ItemType.text → x.gps = none) →
      (photoIn "c.jpg" (11 * hour + 1800000) telAviv none).type ≠ ItemType.text)) :=
  ⟨by decide, by decide, map_items sampleEnv travelPair _ _ (by decide)⟩

/-! ## The nodes do not depend on the date formatting -/

theorem mapTriggered_congr (env env' : Env) (hd : env.getDistance = env'.getDistance)
    (prev : Option Item) (c : Item) : mapTriggered env prev c = mapTriggered env' prev c := by
  unfold mapTriggered
  rw [hd]

theorem out_congr (env env' : Env) (hd : env.getDistance = env'.getDistance)
    (rest : List Item) :
    ∀ (prev : Option Item) (buf : List Item), out env prev rest buf = out env' prev rest buf := by
  induction rest with
  | nil => intro prev buf; rfl
  | cons c cs ih =>
    intro prev buf
    have he : emitted env prev c buf = emitted env' prev c buf := by
      unfold emitted mapNodes
      rw [mapTriggered_congr env env' hd prev c]
      cases prev with
      | none => rfl
      | some p => simp only [mapTriggered_congr env env' hd (some p) c]
    have hb : nextBuffer env prev c buf = nextBuffer env' prev c buf := by
      unfold nextBuffer
      rw [mapTriggered_congr env env' hd prev c]
    simp only [out, he, hb, ih]

/-- Two environments with the same distance function give the same nodes. -/
theorem processFeed_nodes_congr (env env' : Env) (hd : env.getDistance = env'.getDistance)
    (photos : List Item) : (processFeed env photos).nodes = (processFeed env' photos).nodes := by
  rw [processFeed_nodes, processFeed_nodes]
  exact out_congr env env' hd photos none []

/-! ## C27: when a node gets a checkpoint -/

/-- The checkpoints after `k` nodes are the final checkpoints with an index
below `k`. -/
theorem cpsAt_eq_filter (env : Env) (nodes : List Node) (k : Nat) (hk : k ≤ nodes.length) :
    cpsAt env nodes k = (cpsAt env nodes nodes.length).filter (fun c => decide (c.id < k)) := by
  have hlen : nodes.length = k + (nodes.length - k) := by omega
  obtain ⟨more, hmore⟩ := cpsAt_grows env nodes k (nodes.length - k)
  rw [← hlen] at hmore
  have hinv := cpsAt_inv env nodes nodes.length
  rw [← hmore] at hinv
  have hpair := List.pairwise_append.mp hinv.2.1
  have hlow : ∀ c ∈ cpsAt env nodes k, c.id < k := fun c hc => ((cpsAt_inv env nodes k).1 c hc).1
  have hhigh : ∀ c ∈ more, ¬ c.id < k := by
    intro c hc hlt
    have hfin : c ∈ cpsAt env nodes (k + (nodes.length - k)) := by
      rw [← hlen, ← hmore]
      exact List.mem_append_right _ hc
    have hmem := mem_cpsAt_of_lt env nodes k (nodes.length - k) c hfin hlt
    exact Nat.lt_irrefl _ (hpair.2.2 c hmem c hc)
  rw [← hmore, List.filter_append]
  have e1 : (cpsAt env nodes k).filter (fun c => decide (c.id < k)) = cpsAt env nodes k := by
    rw [List.filter_eq_self]
    intro c hc
    simp [hlow c hc]
  have e2 : more.filter (fun c => decide (c.id < k)) = [] := by
    rw [List.filter_eq_nil_iff]
    intro c hc
    simp [hhigh c hc]
  rw [e1, e2, List.append_nil]

/-- C27. For a hero or cluster node at index `k` whose representative `r`
does not hide its checkpoint, a checkpoint with index `k` is produced exactly
when no checkpoint was produced for an earlier node or the label of `r`
differs from the label of the most recent of them; a node without
representative (text, map) and a node whose representative hides its
checkpoint never get one. -/
theorem checkpoint_produced_iff (env : Env) (photos : List Item) (k : Nat) (n : Node) :
    (processFeed env photos).nodes[k]? = some n →
    (∀ r, contextItem n = some r → r.hideCheckpoint = false →
      ((∃ c ∈ (processFeed env photos).checkpoints, c.id = k) ↔
        ((processFeed env photos).checkpoints.filter (fun c => decide (c.id < k)) = [] ∨
          ∃ l, ((processFeed env photos).checkpoints.filter
              (fun c => decide (c.id < k))).getLast? = some l ∧
            l.label ≠ resolvedLabel env r))) ∧
    (contextItem n = none → ¬ ∃ c ∈ (processFeed env photos).checkpoints, c.id = k) ∧
    (∀ r, contextItem n = some r → r.hideCheckpoint = true →
      ¬ ∃ c ∈ (processFeed env photos).checkpoints, c.id = k) := by
  intro hn
  have hlt : k < (processFeed env photos).nodes.length := by
    by_contra hge
    rw [List.getElem?_eq_none (Nat.le_of_not_lt hge)] at hn
    cases hn
  refine ⟨?_, ?_, ?_⟩
  · intro r hr hh
    rw [processFeed_checkpoints, produced_iff env _ k n r hn hr,
      ← cpsAt_eq_filter env _ k (Nat.le_of_lt hlt)]
    constructor
    · rintro ⟨_, h | h⟩
      · exact Or.inl (List.getLast?_eq_none_iff.mp h)
      · exact Or.inr h
    · rintro (h | h)
      · exact ⟨hh, Or.inl (by rw [h]; rfl)⟩
      · exact ⟨hh, Or.inr h⟩
  · rintro hnone ⟨c, hc, hid⟩
    obtain ⟨n', r', hn', hr', _, _⟩ := processFeed_generated env photos c hc
    rw [hid, hn] at hn'
    cases hn'
    rw [hnone] at hr'
    cases hr'
  · rintro r hr hh ⟨c, hc, hid⟩
    obtain ⟨n', r', hn', hr', hh', _⟩ := processFeed_generated env photos c hc
    rw [hid, hn] at hn'
    cases hn'
    rw [hr] at hr'
    cases hr'
    rw [hh] at hh'
    cases hh'

/-- C27, on the sample trip: the hero node at index 2 gets a checkpoint
because its label differs from the one before, and the text node at index 1
gets none. -/
theorem checkpoint_produced_iff_witness :
    (∃ c ∈ (processFeed sampleEnv sampleTrip).checkpoints, c.id = 2) ∧
    ¬ ∃ c ∈ (processFeed sampleEnv sampleTrip).checkpoints, c.id = 1 :=
  ⟨((checkpoint_produced_iff sampleEnv sampleTrip 2
      (Node.hero { photoIn "d.jpg" (33 * hour) miami (some "Miami Beach") with
        layoutIntent := some LayoutIntent.hero }) (by decide)).1 _ rfl rfl).mpr
      (Or.inr ⟨mkCheckpoint sampleEnv (photoIn "a.jpg" (9 * hour) telAviv (some "Tel Aviv-Yafo")) 0,
        by decide, by decide⟩),
    (checkpoint_produced_iff sampleEnv sampleTrip 1 (Node.text (textBlock "text_1"))
      (by decide)).2.1 rfl⟩

/-! ## C21: text items cut the node list -/

/-- The run reaches any position of the input with the nodes appended so far
and the buffer holding the items seen so far. -/
theorem out_before (env : Env) (rest : List Item) (pre : List Item) :
    ∀ (p : Option Item) (buf : List Item),
      ∃ (N0 : List Node) (b0 : List Item) (p' : Option Item),
        out env p (pre ++ rest) buf = N0 ++ out env p' rest b0 ∧
        (flatten N0 ++ b0).Perm (buf ++ pre) := by
  induction pre with
  | nil =>
    intro p buf
    exact ⟨[], buf, p, by simp, by simp [flatten]⟩
  | cons a as ih =>
    intro p buf
    obtain ⟨N0, b0, p', h, hperm⟩ := ih (some a) (nextBuffer env p a buf)
    refine ⟨emitted env p a buf ++ N0, b0, p', ?_, ?_⟩
    · show emitted env p a buf ++ out env (some a) (as ++ rest) (nextBuffer env p a buf) = _
      rw [h, List.append_assoc]
    · rw [flatten_append, List.append_assoc]
      have h1 := hperm.append_left (flatten (emitted env p a buf))
      have h2 := (emitted_perm env p a buf).append_right as
      refine h1.trans ?_
      simpa [List.append_assoc] using h2

theorem getElem?_split {α : Type} (l : List α) (i : Nat) (a : α) (h : l[i]? = some a) :
    l = l.take i ++ a :: l.drop (i + 1) := by
  have hlt : i < l.length := by
    by_contra hge
    rw [List.getElem?_eq_none (Nat.le_of_not_lt hge)] at h
    cases h
  rw [List.getElem?_eq_getElem hlt] at h
  have := List.drop_eq_getElem_cons hlt
  rw [Option.some.inj h] at this
  rw [← this, List.take_append_drop]

/-- The node list is cut at the text node of a text item. -/
theorem out_text_split (env : Env) (pre post : List Item) (T : Item)
    (ht : T.type = ItemType.text) :
    ∃ N1 N2, out env none (pre ++ T :: post) [] = N1 ++ Node.text T :: N2 ∧
      (flatten N1).Perm pre ∧ (flatten N2).Perm post := by
  obtain ⟨N0, b0, p', hout, hperm⟩ := out_before env (T :: post) pre none []
  have hem : emitted env p' T b0 = flushNodes b0 ++ [Node.text T] ∧
      nextBuffer env p' T b0 = [] := by
    rcases emitted_cases env p' T b0 with ⟨_, he, hb⟩ | ⟨hne, _⟩ | ⟨hne, _⟩ | ⟨hne, _⟩
    · exact ⟨he, hb⟩
    · exact absurd ht hne
    · exact absurd ht hne
    · exact absurd ht hne
  refine ⟨N0 ++ flushNodes b0, out env (some T) post [], ?_, ?_, ?_⟩
  · rw [hout]
    simp only [out, hem.1, hem.2, List.append_assoc, List.singleton_append]
  · rw [flatten_append]
    refine ((flushNodes_perm b0).append_left (flatten N0)).trans ?_
    simpa using hperm
  · simpa using out_perm env post (some T) []

/-- C21. For a text item `T` at position `i` of the input, the node list of
`processFeed` is the nodes of the items before `T`, then the text node of `T`,
then the nodes of the items after `T`; so every cluster lies on one side of
`T`; and, the input items being pairwise distinct, `T` has exactly one text
node, every item before `T` lies in a node before it and every item after `T`
in a node after it. -/
theorem text_node_between (env : Env) (photos : List Item) (i : Nat) (T : Item)
    (hT : photos[i]? = some T) (ht : T.type = ItemType.text) :
    (∃ N1 N2, (processFeed env photos).nodes = N1 ++ Node.text T :: N2 ∧
      (flatten N1).Perm (photos.take i) ∧ (flatten N2).Perm (photos.drop (i + 1))) ∧
    (∀ items, Node.cluster items ∈ (processFeed env photos).nodes →
      (∀ x ∈ items, x ∈ photos.take i) ∨ (∀ x ∈ items, x ∈ photos.drop (i + 1))) ∧
    (photos.Nodup →
      (∃! k : Nat, (processFeed env photos).nodes[k]? = some (Node.text T)) ∧
      ∀ k : Nat, (processFeed env photos).nodes[k]? = some (Node.text T) →
        (∀ (j : Nat) (x : Item), j < i → photos[j]? = some x →
          ∃ (a : Nat) (n : Node), a < k ∧ (processFeed env photos).nodes[a]? = some n ∧
            x ∈ nodeItems n) ∧
        (∀ (j : Nat) (x : Item), i < j → photos[j]? = some x →
          ∃ (b : Nat) (n : Node), k < b ∧ (processFeed env photos).nodes[b]? = some n ∧
            x ∈ nodeItems n)) := by
  have hsplit := getElem?_split photos i T hT
  obtain ⟨N1, N2, hN, hp1, hp2⟩ := out_text_split env (photos.take i) (photos.drop (i + 1)) T ht
  rw [← hsplit, ← processFeed_nodes] at hN
  refine ⟨⟨N1, N2, hN, hp1, hp2⟩, ?_, ?_⟩
  · intro items hmem
    rw [hN] at hmem
    rcases List.mem_append.mp hmem with h | h
    · left
      intro x hx
      exact hp1.mem_iff.mp ((mem_flatten_iff x N1).mpr ⟨_, h, hx⟩)
    · rcases List.mem_cons.mp h with h1 | h1
      · cases h1
      · right
        intro x hx
        exact hp2.mem_iff.mp ((mem_flatten_iff x N2).mpr ⟨_, h1, hx⟩)
  · intro hnd
    have hperm : (flatten (processFeed env photos).nodes).Perm photos := by
      rw [processFeed_nodes]
      simpa using out_perm env photos none []
    have hfn : (flatten (processFeed env photos).nodes).Nodup := hperm.nodup_iff.mpr hnd
    have hk0 : (processFeed env photos).nodes[N1.length]? = some (Node.text T) := by
      rw [hN, List.getElem?_append_right (Nat.le_refl _)]
      simp
    have huniq : ∀ k : Nat, (processFeed env photos).nodes[k]? = some (Node.text T) →
        k = N1.length := by
      intro k hk
      exact nodup_index_unique _ k N1.length _ _ T hfn hk hk0 (by simp [nodeItems])
        (by simp [nodeItems])
    refine ⟨⟨N1.length, hk0, huniq⟩, ?_⟩
    intro k hk
    rw [huniq k hk]
    constructor
    · intro j x hj hx
      have hxt : x ∈ photos.take i := by
        apply List.mem_iff_getElem?.mpr
        exact ⟨j, by rw [List.getElem?_take_of_lt hj]; exact hx⟩
      obtain ⟨a, n, ha, hxa⟩ := mem_flatten_index x N1 (hp1.mem_iff.mpr hxt)
      have halt : a < N1.length := by
        by_contra hge
        rw [List.getElem?_eq_none (Nat.le_of_not_lt hge)] at ha
        cases ha
      exact ⟨a, n, halt, by rw [hN, List.getElem?_append_left halt]; exact ha, hxa⟩
    · intro j x hj hx
      have hxd : x ∈ photos.drop (i + 1) := by
        apply List.mem_iff_getElem?.mpr
        refine ⟨j - (i + 1), ?_⟩
        rw [List.getElem?_drop]
        have : i + 1 + (j - (i + 1)) = j := by omega
        rw [this]
        exact hx
      obtain ⟨b, n, hb, hxb⟩ := mem_flatten_index x N2 (hp2.mem_iff.mpr hxd)
      refine ⟨N1.length + 1 + b, n, by omega, ?_, hxb⟩
      rw [hN, List.getElem?_append_right (by omega)]
      have : N1.length + 1 + b - N1.length = b + 1 := by omega
      rw [this]
      simpa using hb

/-- C21, on the text block of the sample trip: its text node is node 1. -/
theorem text_node_between_witness :
    sampleTrip.Nodup ∧
    (processFeed sampleEnv sampleTrip).nodes[1]? = some (Node.text (textBlock "text_1")) ∧
    ∃! k : Nat, (processFeed sampleEnv sampleTrip).nodes[k]? =
      some (Node.text (textBlock "text_1")) :=
  ⟨by decide, by decide,
    ((text_node_between sampleEnv sampleTrip 3 (textBlock "text_1") (by decide)
      (by decide)).2.2 (by decide)).1⟩

/-! ## C28: unparsable timestamps -/

theorem withinThreshold_none (a b : Option Int) (h : a = none ∨ b = none) :
    withinThreshold (timeDiff a b) = false := by
  rcases h with h | h
  · subst h
    rfl
  · subst h
    cases a <;> rfl

/-- An auto photo that fails the auto test against the item before it starts
a new scene, whatever that item is: the node list splits between them. -/
theorem out_pair_apart (env : Env) (pre post : List Item) (prev curr : Item)
    (hct : curr.type ≠ ItemType.text) (hci : curr.layoutIntent = none)
    (hw : withinThreshold (timeDiff curr.date prev.date) = false)
    (hf : sameFolder curr prev = false) :
    ∃ N1 N2, out env none (pre ++ prev :: curr :: post) [] = N1 ++ N2 ∧
      (flatten N1).Perm (pre ++ [prev]) ∧ (flatten N2).Perm (curr :: post) := by
  obtain ⟨N0, b1, hout, hcase, hperm⟩ := out_reach env prev (curr :: post) pre none []
  have hb1 : b1 = [] ∨ ∃ b, b1 = b ++ [prev] := by
    rcases hcase with ⟨_, h, _⟩ | ⟨_, h⟩
    · exact Or.inl h
    · exact Or.inr h
  obtain ⟨hnb, hpe⟩ := emitted_lone env prev curr b1 hct hci hb1 hw hf
  refine ⟨N0 ++ emitted env (some prev) curr b1, out env (some curr) post [curr], ?_, ?_, ?_⟩
  · rw [hout]
    simp only [out, hnb, List.append_assoc]
  · rw [flatten_append]
    refine (hpe.append_left (flatten N0)).trans ?_
    simpa using hperm
  · simpa using out_perm env post (some curr) [curr]

/-- C28. For consecutive input items `prev`, `curr` where `curr` is a photo
with no `layoutIntent` and the timestamp of `curr` or of `prev` is unparsable:
the time test fails (the two count as infinitely far apart); if they share no
non-empty folder, `curr` starts a new scene, the node list splitting between
them; if they share one, `prev` is a photo without hero intent and no map node
is triggered, they sit side by side in one cluster node; so, the input items
being pairwise distinct, a cluster holds both only if they share a non-empty
folder. The function returns a result in every case. -/
theorem unparsable_date (env : Env) (photos : List Item) (i : Nat) (prev curr : Item)
    (hp : photos[i]? = some prev) (hc : photos[i + 1]? = some curr)
    (hct : curr.type ≠ ItemType.text) (hci : curr.layoutIntent = none)
    (hd : curr.date = none ∨ prev.date = none) :
    withinThreshold (timeDiff curr.date prev.date) = false ∧
    (sameFolder curr prev = false →
      ∃ N1 N2, (processFeed env photos).nodes = N1 ++ N2 ∧
        (flatten N1).Perm (photos.take (i + 1)) ∧ (flatten N2).Perm (photos.drop (i + 1))) ∧
    (sameFolder curr prev = true → prev.type ≠ ItemType.text →
      prev.layoutIntent ≠ some LayoutIntent.hero → mapTriggered env (some prev) curr = false →
      ∃ items, Node.cluster items ∈ (processFeed env photos).nodes ∧ [prev, curr] <:+: items) ∧
    (photos.Nodup →
      (∃ items, Node.cluster items ∈ (processFeed env photos).nodes ∧
        prev ∈ items ∧ curr ∈ items) → sameFolder curr prev = true) := by
  have hw := withinThreshold_none curr.date prev.date hd
  obtain ⟨hsplit, htake, hdrop⟩ := adjacent_take_drop photos i prev curr hp hc
  have hapart : sameFolder curr prev = false →
      ∃ N1 N2, (processFeed env photos).nodes = N1 ++ N2 ∧
        (flatten N1).Perm (photos.take (i + 1)) ∧ (flatten N2).Perm (photos.drop (i + 1)) := by
    intro hf
    obtain ⟨N1, N2, hN, hp1, hp2⟩ := out_pair_apart env (photos.take i) (photos.drop (i + 2))
      prev curr hct hci hw hf
    refine ⟨N1, N2, ?_, ?_, ?_⟩
    · rw [processFeed_nodes]
      conv_lhs => rw [hsplit]
      exact hN
    · rw [htake]
      exact hp1
    · rw [hdrop]
      exact hp2
  refine ⟨hw, hapart, ?_, ?_⟩
  · intro hf hpt hpi hm
    obtain ⟨items, hmem, hinf⟩ := out_pair_joined env (photos.take i) (photos.drop (i + 2))
      prev curr hpt hct hci hpi hm (by rw [hw, hf]; rfl)
    refine ⟨items, ?_, hinf⟩
    rw [processFeed_nodes]
    conv_lhs => rw [hsplit]
    exact hmem
  · rintro hnd ⟨items, hmem, hpm, hcm⟩
    cases hf : sameFolder curr prev with
    | true => rfl
    | false =>
      exfalso
      obtain ⟨N1, N2, hN, hp1, hp2⟩ := hapart hf
      have hdis : List.Disjoint (photos.take (i + 1)) (photos.drop (i + 1)) := by
        have := hnd
        rw [← List.take_append_drop (i + 1) photos] at this
        exact (List.nodup_append.mp this).2.2
      have hprev : prev ∈ photos.take (i + 1) := by rw [htake]; simp
      have hcurr : curr ∈ photos.drop (i + 1) := by rw [hdrop]; simp
      rw [hN] at hmem
      rcases List.mem_append.mp hmem with h | h
      · have : curr ∈ flatten N1 := (mem_flatten_iff curr N1).mpr ⟨_, h, hcm⟩
        exact hdis (hp1.mem_iff.mp this) hcurr
      · have : prev ∈ flatten N2 := (mem_flatten_iff prev N2).mpr ⟨_, h, hpm⟩
        exact hdis hprev (hp2.mem_iff.mp this)

/-- C28, on the undated input: the second photo has no date and shares the
folder of the first, so they form a cluster; the third has no date and no
folder, so it starts a scene of its own. -/
theorem unparsable_date_witness :
    (∃ items, Node.cluster items ∈ (processFeed sampleEnv undated).nodes ∧
      [photoInFolder "a.jpg" 0 "Rome",
        { photoInFolder "b.jpg" 0 "Rome" with date := none }] <:+: items) ∧
    (∃ N1 N2, (processFeed sampleEnv undated).nodes = N1 ++ N2 ∧
      (flatten N1).Perm (undated.take (1 + 1)) ∧ (flatten N2).Perm (undated.drop (1 + 1))) :=
  ⟨(unparsable_date sampleEnv undated 0 (photoInFolder "a.jpg" 0 "Rome")
      { photoInFolder "b.jpg" 0 "Rome" with date := none } (by decide) (by decide)
      (by decide) (by decide) (Or.inl rfl)).2.2.1 (by decide) (by decide) (by decide)
      (by decide),
    (unparsable_date sampleEnv undated 1 { photoInFolder "b.jpg" 0 "Rome" with date := none }
      { photoAt "c.jpg" 0 with date := none } (by decide) (by decide) (by decide)
      (by decide) (Or.inl rfl)).2.1 (by decide)⟩

/-! ## C25: the time gaps inside a cluster -/

/-- Every cluster node of a run is the flush of a buffer that is a run of
consecutive items and in which every auto item passed the auto test against
the item before it. -/
theorem out_scene (env : Env) (items : List Item) (rest : List Item) :
    ∀ (prev : Option Item) (buf : List Item), List.Chain' SceneStep buf →
      Node.cluster items ∈ out env prev rest buf →
      ∃ b, Node.cluster items ∈ flushNodes b ∧ b <:+: buf ++ rest ∧ List.Chain' SceneStep b := by
  induction rest with
  | nil =>
    intro prev buf hch h
    exact ⟨buf, h, by simp, hch⟩
  | cons c cs ih =>
    intro prev buf hch h
    simp only [out] at h
    have hflush : Node.cluster items ∈ flushNodes buf →
        ∃ b, Node.cluster items ∈ flushNodes b ∧ b <:+: buf ++ c :: cs ∧
          List.Chain' SceneStep b :=
      fun hn => ⟨buf, hn, (List.prefix_append buf (c :: cs)).isInfix, hch⟩
    have hlater : ∀ nb : List Item, nextBuffer env prev c buf = nb →
        List.Chain' SceneStep nb → nb ++ cs <:+ buf ++ c :: cs →
        Node.cluster items ∈ out env (some c) cs (nextBuffer env prev c buf) →
        ∃ b, Node.cluster items ∈ flushNodes b ∧ b <:+: buf ++ c :: cs ∧
          List.Chain' SceneStep b := by
      intro nb hnb hchn hsuf hmem
      rw [hnb] at hmem
      obtain ⟨b, hb, hinf, hcb⟩ := ih (some c) nb hchn hmem
      exact ⟨b, hb, hinf.trans hsuf.isInfix, hcb⟩
    have hsuf1 : [c] ++ cs <:+ buf ++ c :: cs := List.suffix_append buf (c :: cs)
    rcases List.mem_append.mp h with h1 | h2
    · rcases emitted_cases env prev c buf with ⟨_, he, _⟩ | ⟨_, ⟨p, _, _, he⟩, _⟩ |
          ⟨_, _, _, he, _⟩ | ⟨_, _, _, he, _⟩
      · rw [he] at h1
        rcases List.mem_append.mp h1 with h | h
        · exact hflush h
        · simp at h
      · rw [he] at h1
        rcases List.mem_append.mp h1 with h | h
        · exact hflush h
        · simp at h
      · rw [he] at h1
        simp at h1
      · rw [he] at h1
        exact hflush h1
    · rcases emitted_cases env prev c buf with ⟨_, _, hb⟩ | ⟨_, _, hb⟩ |
          ⟨_, _, hj, _, hb⟩ | ⟨_, _, _, _, hb⟩
      · refine hlater [] hb List.chain'_nil ?_ h2
        have : cs <:+ buf ++ c :: cs := by
          have h3 : cs <:+ c :: cs := List.suffix_cons c cs
          exact h3.trans (List.suffix_append buf (c :: cs))
        simpa using this
      · exact hlater [c] hb (List.chain'_singleton c) hsuf1 h2
      · refine hlater (buf ++ [c]) hb ?_ (by simp) h2
        rw [List.chain'_append]
        refine ⟨hch, List.chain'_singleton c, ?_⟩
        intro x hx y hy
        simp at hy
        subst hy
        intro hi
        have hx' : buf.getLast? = some x := hx
        unfold joins at hj
        rw [hi, hx'] at hj
        simpa using hj
      · exact hlater [c] hb (List.chain'_singleton c) hsuf1 h2

/-- C25, as stated, fails: a hero-intent photo buffered between two auto
photos is tested in their place, so the cluster holds two adjacent auto items
eleven hours apart. -/
theorem cluster_gap_counterexample :
    Node.cluster [photoAt "a.jpg" 0, photoAt "b.jpg" (11 * hour)]
      ∈ (processFeed sampleEnv heroBetween).nodes ∧
    (photoAt "a.jpg" 0).layoutIntent = none ∧ (photoAt "b.jpg" (11 * hour)).layoutIntent = none ∧
    sameFolder (photoAt "b.jpg" (11 * hour)) (photoAt "a.jpg" 0) = false ∧
    timeDiff (photoAt "b.jpg" (11 * hour)).date (photoAt "a.jpg" 0).date = some 39600000 ∧
    ¬ 39600000 < CLUSTER_TIME_THRESHOLD := by
  decide

/-- C25, amended. Every cluster node of `processFeed` is the non-hero part of
a run of consecutive input items in which every item with no `layoutIntent`
is less than `CLUSTER_TIME_THRESHOLD` from, or shares a non-empty folder with,
the item right before it in the run; so when no input item has `layoutIntent`
hero, any two items adjacent in the cluster, the second with no
`layoutIntent`, that share no non-empty folder are less than three hours
apart. -/
theorem cluster_scene (env : Env) (photos : List Item) (items : List Item)
    (h : Node.cluster items ∈ (processFeed env photos).nodes) :
    (∃ scene, scene <:+: photos ∧
      items = scene.filter (fun p => !(p.layoutIntent == some LayoutIntent.hero)) ∧
      List.Chain' SceneStep scene) ∧
    ((∀ x ∈ photos, x.layoutIntent ≠ some LayoutIntent.hero) →
      ∀ x y, [x, y] <:+: items → y.layoutIntent = none → sameFolder y x = false →
        withinThreshold (timeDiff y.date x.date) = true) := by
  rw [processFeed_nodes] at h
  obtain ⟨b, hb, hinf, hch⟩ := out_scene env items photos none [] List.chain'_nil h
  rw [List.nil_append] at hinf
  have hitems : items = b.filter (fun p => !isHero p) := by
    rcases flushNodes_mem b _ hb with ⟨y, hy, _⟩ | ⟨hn, _⟩
    · cases hy
    · simpa using hn
  refine ⟨⟨b, hinf, hitems, hch⟩, ?_⟩
  intro hall x y hxy hyi hf
  have hfull : items = b := by
    rw [hitems, List.filter_eq_self]
    intro z hz
    simp [isHero, hall z (hinf.subset hz)]
  rw [hfull] at hxy
  have hstep : SceneStep x y := by
    have := hch.infix hxy
    simpa using this
  rcases hstep hyi with hw | hs
  · exact hw
  · rw [hf] at hs
    cases hs

/-- C25 amended, on the cluster of the sample trip: its first two photos are
one hour apart. -/
theorem cluster_scene_witness :
    (∃ scene, scene <:+: sampleTrip ∧
      sampleTrip.take 3 =
        scene.filter (fun p => !(p.layoutIntent == some LayoutIntent.hero)) ∧
      List.Chain' SceneStep scene) ∧
    withinThreshold (timeDiff (photoIn "b.jpg" (10 * hour) telAviv none).date
      (photoIn "a.jpg" (9 * hour) telAviv (some "Tel Aviv-Yafo")).date) = true :=
  ⟨(cluster_scene sampleEnv sampleTrip (sampleTrip.take 3) (by decide)).1, by decide⟩

/-! ## C22: inputs of invalid shape -/

theorem invalidShape_ne_nil (photos : List Item) (h : invalidShape photos) : photos ≠ [] := by
  rintro rfl
  rcases h with ⟨x, hx, _⟩ | ⟨x, hx, _⟩ | ⟨i, a, b, ta, tb, ha, _⟩
  · simp at hx
  · simp at hx
  · simp at ha

/-- C22, as stated, fails: on an input whose first photo has neither identity
nor timestamp and whose other two photos are out of time order, `processFeed`
returns three hero nodes and two checkpoints; the function has no validation
and no error result. -/
theorem validation_counterexample :
    (∃ x ∈ badShape, x.type ≠ ItemType.text ∧ x.date = none ∧ x.src = "") ∧
    (∃ (a b : Item) (ta tb : Int), badShape[1]? = some a ∧ badShape[1 + 1]? = some b ∧
      a.date = some ta ∧ b.date = some tb ∧ tb < ta) ∧
    invalidShape badShape ∧
    (processFeed sampleEnv badShape).nodes =
      [ Node.hero { photoAt "" 0 with date := none },
        Node.hero (photoAt "b.jpg" (5 * hour)),
        Node.hero (photoAt "c.jpg" 0) ] ∧
    (processFeed sampleEnv badShape).checkpoints.map Checkpoint.id = [0, 1] := by
  have h1 : ∃ x ∈ badShape, x.type ≠ ItemType.text ∧ x.date = none ∧ x.src = "" :=
    ⟨{ photoAt "" 0 with date := none }, by decide, by decide, rfl, rfl⟩
  refine ⟨h1, ⟨photoAt "b.jpg" (5 * hour), photoAt "c.jpg" 0, 5 * hour, 0,
    by decide, by decide, rfl, rfl, by decide⟩, ?_, by decide, by decide⟩
  obtain ⟨x, hx, ht, hd, _⟩ := h1
  exact Or.inl ⟨x, hx, ht, hd⟩

/-- C22, amended. On an input of invalid shape (a non-text item without
timestamp or identity, or items out of time order) `processFeed` does not
fail: it returns, as for any input, a non-empty node list whose items are
exactly the input items, and checkpoints that each point at one of its
nodes. -/
theorem processFeed_no_validation (env : Env) (photos : List Item) (h : invalidShape photos) :
    (flatten (processFeed env photos).nodes).Perm photos ∧
    (processFeed env photos).nodes ≠ [] ∧
    ∀ c ∈ (processFeed env photos).checkpoints, c.id < (processFeed env photos).nodes.length := by
  have hperm : (flatten (processFeed env photos).nodes).Perm photos := by
    rw [processFeed_nodes]
    simpa using out_perm env photos none []
  refine ⟨hperm, ?_, ?_⟩
  · intro hnil
    rw [hnil] at hperm
    exact invalidShape_ne_nil photos h (List.Perm.nil_eq hperm).symm
  · intro c hc
    obtain ⟨n, r, hn, _, _, _⟩ := processFeed_generated env photos c hc
    by_contra hge
    rw [List.getElem?_eq_none (Nat.le_of_not_lt hge)] at hn
    cases hn

/-- C22 amended, on the input of invalid shape. -/
theorem processFeed_no_validation_witness :
    invalidShape badShape ∧
    ((flatten (processFeed sampleEnv badShape).nodes).Perm badShape ∧
    (processFeed sampleEnv badShape).nodes ≠ [] ∧
    ∀ c ∈ (processFeed sampleEnv badShape).checkpoints,
      c.id < (processFeed sampleEnv badShape).nodes.length) :=
  ⟨Or.inl ⟨{ photoAt "" 0 with date := none }, by decide, by decide, rfl⟩,
    processFeed_no_validation sampleEnv badShape
      (Or.inl ⟨{ photoAt "" 0 with date := none }, by decide, by decide, rfl⟩)⟩

end AutoAlbum
